import Mathlib

/-!
# CHIP-8 interpreter core (`pkg/emulator/emulator.go`)

A shallow embedding of the `Emulator` type and of its methods `New`, `LoadROM`,
`UpdateTimers` and `EmulateCycle`.

Modelling conventions.

* Go's fixed-size arrays (`[4096]byte`, `[16]byte`, `[16]uint16`, `[2048]byte`,
  `[16]bool`) are total functions on `Nat`; every indexing operation of the source
  carries its bounds check explicitly, and an index out of range (a run-time panic
  in Go) makes the operation return `none`.
* `byte` and `uint16` values are natural numbers; every arithmetic operation that
  can overflow in the source is followed by `% 256` or `% 65536`.  The predicate
  `Emulator.WF` says that all cells are in the range of their Go type.
* `rand.IntN(256)` is an explicit argument `rnd` of `EmulateCycle`.
* Console output (`fmt.Println`, `fmt.Printf`) is not part of the state and is
  not modelled.
-/

namespace Chip8

def FontStart : Nat := 0x50
def ProgramStart : Nat := 0x200
def DisplayWidth : Nat := 64
def DisplayHeight : Nat := 32
def DisplaySize : Nat := DisplayWidth * DisplayHeight

/-- Array store `a[k] = x` on an array modelled as a function. -/
def setAt {α : Type} (a : Nat → α) (k : Nat) (x : α) : Nat → α :=
  fun j => if j = k then x else a j

/-- Emulator holds memory, registers, display and timer. -/
structure Emulator where
  memory : Nat → Nat
  v : Nat → Nat
  i : Nat
  pc : Nat
  sp : Nat
  stack : Nat → Nat
  DrawFlag : Bool
  Display : Nat → Nat
  keypad : Nat → Bool
  delayTimer : Nat
  soundTimer : Nat

/-- Every cell of the state is in the range of its Go type. -/
structure Emulator.WF (e : Emulator) : Prop where
  memory_lt : ∀ a, e.memory a < 256
  v_lt : ∀ k, e.v k < 256
  i_lt : e.i < 65536
  pc_lt : e.pc < 65536
  sp_lt : e.sp < 256
  stack_lt : ∀ k, e.stack k < 65536
  Display_lt : ∀ k, e.Display k < 256
  delayTimer_lt : e.delayTimer < 256
  soundTimer_lt : e.soundTimer < 256

/-- New creates CHIP-8 emulator. -/
def New : Emulator where
  memory := fun _ => 0
  v := fun _ => 0
  i := 0
  pc := ProgramStart
  sp := 0
  stack := fun _ => 0
  DrawFlag := false
  Display := fun _ => 0
  keypad := fun _ => false
  delayTimer := 0
  soundTimer := 0

/-- LoadROM: `copy(e.memory[ProgramStart:], data)`.  Go's `copy` transfers
`min(len(dst), len(src))` elements, here at most `4096 - ProgramStart`. -/
def LoadROM (data : List Nat) (e : Emulator) : Emulator :=
  { e with memory := fun a =>
      if ProgramStart ≤ a ∧ a < 4096 ∧ a - ProgramStart < data.length then
        data.getD (a - ProgramStart) 0
      else e.memory a }

/-- UpdateTimers delay and sound timer. -/
def UpdateTimers (e : Emulator) : Emulator :=
  let e1 := if e.delayTimer > 0 then { e with delayTimer := e.delayTimer - 1 } else e
  if e1.soundTimer > 0 then { e1 with soundTimer := e1.soundTimer - 1 } else e1

/-- Instruction fetch: `uint16(e.memory[e.pc])<<8 | uint16(e.memory[e.pc+1])`. -/
def fetch (e : Emulator) : Option Nat :=
  if e.pc < 4096 then
    if (e.pc + 1) % 65536 < 4096 then
      some ((((e.memory e.pc) <<< 8) % 65536) ||| e.memory ((e.pc + 1) % 65536))
    else none
  else none

/-- Group `0x0000`: CLS, RET, or an unknown word. -/
def exec0 (opcode : Nat) (e : Emulator) : Option Emulator :=
  if opcode = 0x00E0 then
    some { e with
      Display := fun j => if j < DisplaySize then 0 else e.Display j
      DrawFlag := true }
  else if opcode = 0x00EE then
    let sp1 := (e.sp + 255) % 256
    if sp1 < 16 then some { e with sp := sp1, pc := e.stack sp1 } else none
  else some e

/-- Group `0x8000`: register-register ALU, selected by the low nibble. -/
def exec8 (opcode x y : Nat) (e : Emulator) : Option Emulator :=
  let k := opcode &&& 0x000F
  if k = 0x0 then some { e with v := setAt e.v x (e.v y) }
  else if k = 0x1 then some { e with v := setAt e.v x (e.v x ||| e.v y) }
  else if k = 0x2 then some { e with v := setAt e.v x (e.v x &&& e.v y) }
  else if k = 0x3 then some { e with v := setAt e.v x (e.v x ^^^ e.v y) }
  else if k = 0x4 then
    let sum := (e.v x + e.v y) % 65536
    let v1 := setAt e.v 0xF 0
    let v2 := if sum > 255 then setAt v1 0xF 1 else v1
    some { e with v := setAt v2 x (sum % 256) }
  else if k = 0x5 then
    let v1 := setAt e.v 0xF 0
    let v2 := if v1 x > v1 y then setAt v1 0xF 1 else v1
    some { e with v := setAt v2 x ((v2 x + 256 - v2 y) % 256) }
  else if k = 0x6 then
    let v1 := setAt e.v 0xF (e.v x &&& 0x1)
    some { e with v := setAt v1 x (v1 x >>> 1) }
  else if k = 0x7 then
    let v1 := setAt e.v 0xF 0
    let v2 := if v1 y > v1 x then setAt v1 0xF 1 else v1
    some { e with v := setAt v2 x ((v2 y + 256 - v2 x) % 256) }
  else if k = 0xE then
    let v1 := setAt e.v 0xF ((e.v x &&& 0x80) >>> 7)
    some { e with v := setAt v1 x ((v1 x <<< 1) % 256) }
  else some e

/-- Innermost body of DRW: one sprite bit at column `col` of row `row`. -/
def drawPixel (vx vy row pixel : Nat) (e : Emulator) (col : Nat) : Emulator :=
  if pixel &&& (0x80 >>> col) ≠ 0 then
    let index := ((vy + row) % DisplayHeight) * DisplayWidth + (vx + col) % DisplayWidth
    let e1 := if e.Display index = 1 then { e with v := setAt e.v 0xF 1 } else e
    { e1 with Display := setAt e1.Display index (e1.Display index ^^^ 1) }
  else e

/-- Body of the row loop of DRW: read `e.memory[e.i+row]`, then the column loop. -/
def drawRow (vx vy : Nat) (e : Emulator) (row : Nat) : Option Emulator :=
  let a := (e.i + row) % 65536
  if a < 4096 then
    some ((List.range 8).foldl (drawPixel vx vy row (e.memory a)) e)
  else none

/-- DRW Vx, Vy, nibble. -/
def draw (x y n : Nat) (e : Emulator) : Option Emulator :=
  let vx := e.v x
  let vy := e.v y
  let height := n
  let e0 := { e with v := setAt e.v 0xF 0 }
  match (List.range height).foldlM (drawRow vx vy) e0 with
  | some e1 => some { e1 with DrawFlag := true }
  | none => none

/-- Group `0xE000`: SKP and SKNP; `e.keypad[e.v[x]]` is bounds-checked. -/
def execE (opcode x : Nat) (e : Emulator) : Option Emulator :=
  let k := opcode &&& 0x00FF
  if k = 0x9E then
    if e.v x < 16 then
      if e.keypad (e.v x) then some { e with pc := (e.pc + 2) % 65536 } else some e
    else none
  else if k = 0xA1 then
    if e.v x < 16 then
      if !e.keypad (e.v x) then some { e with pc := (e.pc + 2) % 65536 } else some e
    else none
  else some e

/-- Body of the loop of `Fx55`: `e.memory[e.i+i] = e.v[i]`. -/
def dumpStep (e : Emulator) (k : Nat) : Option Emulator :=
  let a := (e.i + k) % 65536
  if a < 4096 then some { e with memory := setAt e.memory a (e.v k) } else none

/-- Body of the loop of `Fx65`: `e.v[i] = e.memory[e.i+i]`. -/
def loadStep (e : Emulator) (k : Nat) : Option Emulator :=
  let a := (e.i + k) % 65536
  if a < 4096 then some { e with v := setAt e.v k (e.memory a) } else none

/-- Group `0xF000`: timers, key wait, index arithmetic, BCD, register dump/load. -/
def execF (opcode x : Nat) (e : Emulator) : Option Emulator :=
  let k := opcode &&& 0x00FF
  if k = 0x07 then some { e with v := setAt e.v x e.delayTimer }
  else if k = 0x0A then
    match (List.range 16).find? (fun j => e.keypad j) with
    | some j => some { e with v := setAt e.v x (j % 256) }
    | none => some { e with pc := (e.pc + 65536 - 2) % 65536 }
  else if k = 0x15 then some { e with delayTimer := e.v x }
  else if k = 0x18 then some { e with soundTimer := e.v x }
  else if k = 0x1E then some { e with i := (e.i + e.v x) % 65536 }
  else if k = 0x29 then some { e with i := (FontStart + e.v x * 5) % 65536 }
  else if k = 0x33 then
    let vx := e.v x
    if e.i < 4096 then
      let m1 := setAt e.memory e.i (vx / 100)
      if (e.i + 1) % 65536 < 4096 then
        let m2 := setAt m1 ((e.i + 1) % 65536) ((vx / 10) % 10)
        if (e.i + 2) % 65536 < 4096 then
          some { e with memory := setAt m2 ((e.i + 2) % 65536) (vx % 10) }
        else none
      else none
    else none
  else if k = 0x55 then (List.range (x + 1)).foldlM dumpStep e
  else if k = 0x65 then (List.range (x + 1)).foldlM loadStep e
  else some e

/-- The `switch opcode & 0xF000` of `EmulateCycle`, on the state whose program
counter has already been advanced. -/
def execute (rnd opcode : Nat) (e : Emulator) : Option Emulator :=
  let x := (opcode &&& 0x0F00) >>> 8
  let y := (opcode &&& 0x00F0) >>> 4
  let n := opcode &&& 0x000F
  let nn := (opcode &&& 0x00FF) % 256
  let nnn := opcode &&& 0x0FFF
  let g := opcode &&& 0xF000
  if g = 0x0000 then exec0 opcode e
  else if g = 0x1000 then some { e with pc := nnn }
  else if g = 0x2000 then
    if e.sp < 16 then
      some { e with stack := setAt e.stack e.sp e.pc, sp := (e.sp + 1) % 256, pc := nnn }
    else none
  else if g = 0x3000 then
    if e.v x = nn then some { e with pc := (e.pc + 2) % 65536 } else some e
  else if g = 0x4000 then
    if e.v x ≠ nn then some { e with pc := (e.pc + 2) % 65536 } else some e
  else if g = 0x5000 then
    if e.v x = e.v y then some { e with pc := (e.pc + 2) % 65536 } else some e
  else if g = 0x6000 then some { e with v := setAt e.v x nn }
  else if g = 0x7000 then some { e with v := setAt e.v x ((e.v x + nn) % 256) }
  else if g = 0x8000 then exec8 opcode x y e
  else if g = 0x9000 then
    if e.v x ≠ e.v y then some { e with pc := (e.pc + 2) % 65536 } else some e
  else if g = 0xA000 then some { e with i := nnn }
  else if g = 0xB000 then some { e with pc := (e.v 0 + nnn) % 65536 }
  else if g = 0xC000 then some { e with v := setAt e.v x ((rnd % 256) &&& nn) }
  else if g = 0xD000 then draw x y n e
  else if g = 0xE000 then execE opcode x e
  else if g = 0xF000 then execF opcode x e
  else some e

/-- EmulateCycle fetches, decodes and executes instruction.  `none` stands for a
run-time panic (an array index out of range). -/
def EmulateCycle (rnd : Nat) (e : Emulator) : Option Emulator :=
  match fetch e with
  | some opcode => execute rnd opcode { e with pc := (e.pc + 2) % 65536 }
  | none => none

/-- Repeated timer ticks. -/
def ticks : Nat → Emulator → Emulator
  | 0, e => e
  | k + 1, e => ticks k (UpdateTimers e)

/-- Repeated steps with the same random draw; stops at the first failing step. -/
def cycles (rnd : Nat) : Nat → Emulator → Option Emulator
  | 0, e => some e
  | k + 1, e => (EmulateCycle rnd e).bind (cycles rnd k)

/-- The PC transition law in the words of the specification: the program counter
after a successful step from state `e` whose fetched word is `w`. -/
def specNextPC (e : Emulator) (w : Nat) : Nat :=
  let X := w / 256 % 16
  let Y := w / 16 % 16
  let NN := w % 256
  let NNN := w % 4096
  if w / 4096 = 1 ∨ w / 4096 = 2 then NNN
  else if w / 4096 = 0xB then (e.v 0 + NNN) % 65536
  else if w = 0x00EE then e.stack (e.sp - 1)
  else if (w / 4096 = 3 ∧ e.v X = NN) ∨ (w / 4096 = 4 ∧ e.v X ≠ NN) ∨
      (w / 4096 = 5 ∧ e.v X = e.v Y) ∨ (w / 4096 = 9 ∧ e.v X ≠ e.v Y) ∨
      (w / 4096 = 0xE ∧ NN = 0x9E ∧ e.keypad (e.v X) = true) ∨
      (w / 4096 = 0xE ∧ NN = 0xA1 ∧ e.keypad (e.v X) = false) then (e.pc + 4) % 65536
  else if w / 4096 = 0xF ∧ NN = 0x0A ∧ (∀ k, k < 16 → e.keypad k = false) then e.pc
  else (e.pc + 2) % 65536

/-- Display index written by DRW for sprite row `row` and column `col`. -/
def cellIndex (vx vy row col : Nat) : Nat :=
  ((vy + row) % DisplayHeight) * DisplayWidth + (vx + col) % DisplayWidth

/-- The sprite pixel of row `r`, column `c` is set: the test
`(pixel & (0x80 >> col)) != 0` on the byte `e.memory[e.i+r]`. -/
def lit (e : Emulator) (r c : Nat) : Prop :=
  e.memory (e.i + r) &&& (0x80 >>> c) ≠ 0

/-- The loops of DRW have gone through the sprite position `(r, c)` when the row
counter is `k` and the column counter is `j`. -/
def processed (k j r c : Nat) : Prop :=
  c < 8 ∧ (r < k ∨ (r = k ∧ c < j))

/-- Loop invariant of DRW, relating the state `s` reached with row counter `k` and
column counter `j` to the state `e0` in which the loops started. -/
structure DrawInv (e0 : Emulator) (vx vy k j : Nat) (s : Emulator) : Prop where
  memory_eq : s.memory = e0.memory
  i_eq : s.i = e0.i
  v_eq : ∀ q, q ≠ 0xF → s.v q = e0.v q
  toggled : ∀ r c, processed k j r c → lit e0 r c →
    s.Display (cellIndex vx vy r c) = e0.Display (cellIndex vx vy r c) ^^^ 1
  kept : ∀ idx, (∀ r c, processed k j r c → lit e0 r c → cellIndex vx vy r c ≠ idx) →
    s.Display idx = e0.Display idx
  flag_set : ∀ r c, processed k j r c → lit e0 r c →
    e0.Display (cellIndex vx vy r c) = 1 → s.v 0xF = 1
  flag_kept : (∀ r c, processed k j r c → lit e0 r c →
    e0.Display (cellIndex vx vy r c) ≠ 1) → s.v 0xF = e0.v 0xF

/-! ## Sample states -/

/-- A freshly constructed machine loaded with `rom`, whose registers `V0, V1, ...`
then hold the values listed in `regs` (registers beyond the list hold 0). -/
def machine (rom regs : List Nat) : Emulator :=
  { LoadROM rom New with v := fun k => regs.getD k 0 }

/-- A machine with delay timer 7 and sound timer 0. -/
def timerState : Emulator := { New with delayTimer := 7 }

/-- Word `8014` with `V0 = 250`, `V1 = 10`. -/
def addState : Emulator := machine [0x80, 0x14] [250, 10]

/-- Word `8F04` with `V0 = 4`, `VF = 3`. -/
def addIntoFlagState : Emulator :=
  machine [0x8F, 0x04] [4, 0, 0, 0, 0, 0, 0, 0, 0, 0, 0, 0, 0, 0, 0, 3]

/-- Word `8015` with `V0 = 5`, `V1 = 5`. -/
def subState : Emulator := machine [0x80, 0x15] [5, 5]

/-- Word `8F05` with `V0 = 5`, `VF = 5`. -/
def subIntoFlagState : Emulator :=
  machine [0x8F, 0x05] [5, 0, 0, 0, 0, 0, 0, 0, 0, 0, 0, 0, 0, 0, 0, 5]

/-- Word `80F5` with `V0 = 5`, `VF = 5`. -/
def subFromFlagState : Emulator :=
  machine [0x80, 0xF5] [5, 0, 0, 0, 0, 0, 0, 0, 0, 0, 0, 0, 0, 0, 0, 5]

/-- Word `8016` with `V0 = 5`. -/
def shrState : Emulator := machine [0x80, 0x16] [5]

/-- Word `801E` with `V0 = 0x81`. -/
def shlState : Emulator := machine [0x80, 0x1E] [0x81]

/-- Word `8F06` with `VF = 3`. -/
def shrFlagState : Emulator :=
  machine [0x8F, 0x06] [0, 0, 0, 0, 0, 0, 0, 0, 0, 0, 0, 0, 0, 0, 0, 3]

/-- Word `8F0E` with `VF = 0x81`. -/
def shlFlagState : Emulator :=
  machine [0x8F, 0x0E] [0, 0, 0, 0, 0, 0, 0, 0, 0, 0, 0, 0, 0, 0, 0, 0x81]

/-- Word `2204` (call 0x204) at 0x200 and `00EE` (return) at 0x204. -/
def callState : Emulator := machine [0x22, 0x04, 0x00, 0x00, 0x00, 0xEE] []

/-- The word `FFFF` at 0x200. -/
def unknownState : Emulator := machine [0xFF, 0xFF] []

/-- Word `F30A` (wait for a key into V3) at 0x200, keys 5 and 9 pressed. -/
def keyWaitState : Emulator :=
  { machine [0xF3, 0x0A] [] with keypad := fun k => k = 5 || k = 9 }

/-- Word `F30A` (wait for a key into V3) at 0x200, no key pressed. -/
def keyIdleState : Emulator := machine [0xF3, 0x0A] []

/-- Word `3007` (skip if `V0 = 7`) at 0x200 with `V0 = 7`. -/
def skipState : Emulator := machine [0x30, 0x07] [7]

/-- Word `D011` (draw 1 row at `(V0, V1) = (0, 0)`) at 0x200, the sprite byte `0x80` at
0x202 and `I = 0x202`, on a clear display. -/
def drawState : Emulator := { machine [0xD0, 0x11, 0x80] [] with i := 0x202 }

/-- As `drawState`, on a display whose cell 0 is already set. -/
def drawCollideState : Emulator :=
  { machine [0xD0, 0x11, 0x80] [] with i := 0x202, Display := fun k => if k = 0 then 1 else 0 }

/-- Word `C20F` (random byte AND 0x0F into V2) at 0x200. -/
def randomState : Emulator := machine [0xC2, 0x0F] []

/-- Word `00E0` (clear display) at 0x200, on a display whose cell 5 is set. -/
def clearState : Emulator :=
  { machine [0x00, 0xE0] [] with Display := fun k => if k = 5 then 1 else 0 }

/-- An image of 3585 bytes, one more than fits between 0x200 and 0xFFF. -/
def oversizedImage : List Nat := List.replicate 3585 0xAB

/-- Word `F033` (store BCD of V0) at 0x200 with `V0 = 156` and `I = 0x300`. -/
def bcdState : Emulator := { machine [0xF0, 0x33] [156] with i := 0x300 }

/-- Word `F155` (dump V0..V1) at 0x200 followed by `F165` (load V0..V1) at 0x202, with
`V0 = 7`, `V1 = 9`, `V2 = 4` and `I = 0x300`. -/
def dumpState : Emulator := { machine [0xF1, 0x55, 0xF1, 0x65] [7, 9, 4] with i := 0x300 }

/-- The stack pointer, the display, the dirty flag and the keypad of `e'` are those
of `e`. -/
def SameStackDisplayKeys (e e' : Emulator) : Prop :=
  e'.sp = e.sp ∧ e'.Display = e.Display ∧ e'.DrawFlag = e.DrawFlag ∧ e'.keypad = e.keypad

/-- Word `00EE` (return) at 0x200 with an empty stack (`sp = 0`). -/
def underflowState : Emulator := machine [0x00, 0xEE] []

/-- Word `2204` (call 0x204) at 0x200 with a full stack (`sp = 16`). -/
def overflowState : Emulator := { machine [0x22, 0x04] [] with sp := 16 }

/-! ## Field extraction -/

theorem and_000F (w : Nat) : w &&& 0x000F = w % 16 :=
  Nat.and_pow_two_sub_one_eq_mod w 4

theorem and_00FF (w : Nat) : w &&& 0x00FF = w % 256 :=
  Nat.and_pow_two_sub_one_eq_mod w 8

theorem and_0FFF (w : Nat) : w &&& 0x0FFF = w % 4096 :=
  Nat.and_pow_two_sub_one_eq_mod w 12

/-- Masking with `k` ones shifted left by `s` selects the bit field `[s, s+k)`. -/
theorem and_mask (w k s : Nat) :
    w &&& ((2 ^ k - 1) <<< s) = (w / 2 ^ s % 2 ^ k) * 2 ^ s := by
  rw [← Nat.shiftLeft_eq, ← Nat.shiftRight_eq_div_pow]
  apply Nat.eq_of_testBit_eq
  intro j
  simp only [Nat.testBit_and, Nat.testBit_shiftLeft, Nat.testBit_two_pow_sub_one,
    Nat.testBit_mod_two_pow, Nat.testBit_shiftRight]
  by_cases h : s ≤ j
  · have : s + (j - s) = j := by omega
    simp [h, this, Bool.and_comm]
  · simp [h]

theorem and_F000 (w : Nat) : w &&& 0xF000 = (w / 4096 % 16) * 4096 := and_mask w 4 12

theorem and_0F00 (w : Nat) : w &&& 0x0F00 = (w / 256 % 16) * 256 := and_mask w 4 8

theorem and_00F0 (w : Nat) : w &&& 0x00F0 = (w / 16 % 16) * 16 := and_mask w 4 4

theorem shr_0F00 (w : Nat) : (w &&& 0x0F00) >>> 8 = w / 256 % 16 := by
  rw [and_0F00, Nat.shiftRight_eq_div_pow]; omega

theorem shr_00F0 (w : Nat) : (w &&& 0x00F0) >>> 4 = w / 16 % 16 := by
  rw [and_00F0, Nat.shiftRight_eq_div_pow]; omega

/-! ## Well-formed states -/

theorem New_WF : New.WF := by
  constructor <;> intros <;> simp [New, ProgramStart]

theorem setAt_lt {a : Nat → Nat} {n : Nat} (h : ∀ j, a j < n) (k : Nat) {x : Nat}
    (hx : x < n) : ∀ j, setAt a k x j < n := by
  intro j
  unfold setAt
  split
  · exact hx
  · exact h j

theorem LoadROM_WF {data : List Nat} {e : Emulator} (hd : ∀ b ∈ data, b < 256)
    (he : e.WF) : (LoadROM data e).WF := by
  refine ⟨?_, he.v_lt, he.i_lt, he.pc_lt, he.sp_lt, he.stack_lt, he.Display_lt,
    he.delayTimer_lt, he.soundTimer_lt⟩
  intro a
  simp only [LoadROM]
  split
  · rename_i h
    rw [List.getD_eq_getElem _ _ h.2.2]
    exact hd _ (List.getElem_mem _)
  · exact he.memory_lt a

theorem machine_WF {rom regs : List Nat} (hrom : ∀ b ∈ rom, b < 256)
    (hregs : ∀ b ∈ regs, b < 256) : (machine rom regs).WF := by
  have h := LoadROM_WF hrom New_WF
  refine ⟨h.memory_lt, ?_, h.i_lt, h.pc_lt, h.sp_lt, h.stack_lt, h.Display_lt,
    h.delayTimer_lt, h.soundTimer_lt⟩
  intro k
  simp only [machine]
  by_cases hk : k < regs.length
  · rw [List.getD_eq_getElem _ _ hk]
    exact hregs _ (List.getElem_mem _)
  · rw [List.getD_eq_default _ _ (by omega)]
    decide

/-! ## Dispatch -/

theorem EmulateCycle_of_fetch {e : Emulator} {w : Nat} (rnd : Nat) (h : fetch e = some w) :
    EmulateCycle rnd e = execute rnd w { e with pc := (e.pc + 2) % 65536 } := by
  simp [EmulateCycle, h]

theorem execute_group8 (rnd : Nat) {w : Nat} (e : Emulator) (h : w / 4096 % 16 = 8) :
    execute rnd w e = exec8 w (w / 256 % 16) (w / 16 % 16) e := by
  simp [execute, and_F000, shr_0F00, shr_00F0, h]

theorem execute_group0 (rnd : Nat) {w : Nat} (e : Emulator) (h : w / 4096 % 16 = 0) :
    execute rnd w e = exec0 w e := by
  simp [execute, and_F000, h]

theorem execute_groupE (rnd : Nat) {w : Nat} (e : Emulator) (h : w / 4096 % 16 = 14) :
    execute rnd w e = execE w (w / 256 % 16) e := by
  simp [execute, and_F000, shr_0F00, h]

theorem execute_groupF (rnd : Nat) {w : Nat} (e : Emulator) (h : w / 4096 % 16 = 15) :
    execute rnd w e = execF w (w / 256 % 16) e := by
  simp [execute, and_F000, shr_0F00, h]

theorem execute_call (rnd : Nat) {w : Nat} (e : Emulator) (h : w / 4096 % 16 = 2) :
    execute rnd w e =
      if e.sp < 16 then
        some { e with stack := setAt e.stack e.sp e.pc, sp := (e.sp + 1) % 256, pc := w % 4096 }
      else none := by
  simp [execute, and_F000, and_0FFF, h]

/-- A successful fetch bounds the program counter and the instruction word. -/
theorem fetch_pc_lt {e : Emulator} {w : Nat} (h : fetch e = some w) : e.pc < 4095 := by
  unfold fetch at h
  split_ifs at h
  omega

theorem fetch_congr {e1 e2 : Emulator} (hm : e1.memory = e2.memory) (hp : e1.pc = e2.pc) :
    fetch e1 = fetch e2 := by
  simp [fetch, hm, hp]

theorem fetch_lt {e : Emulator} {w : Nat} (hwf : e.WF) (h : fetch e = some w) :
    w < 65536 := by
  unfold fetch at h
  split_ifs at h
  cases h
  exact Nat.or_lt_two_pow (n := 16) (Nat.mod_lt _ (by decide))
    (Nat.lt_trans (hwf.memory_lt _) (by decide))

/-! ## Loops preserve what their bodies preserve -/

theorem foldlM_inv {α : Type} (P : Emulator → Prop) (f : Emulator → α → Option Emulator)
    (hf : ∀ e a e', P e → f e a = some e' → P e') :
    ∀ (l : List α) (e e' : Emulator), P e → l.foldlM f e = some e' → P e' := by
  intro l
  induction l with
  | nil =>
    intro e e' hP h
    simp at h
    exact h ▸ hP
  | cons a l ih =>
    intro e e' hP h
    rw [List.foldlM_cons] at h
    cases hfe : f e a with
    | none => simp [hfe] at h
    | some e1 =>
      rw [hfe] at h
      exact ih e1 e' (hf e a e1 hP hfe) h

theorem foldl_inv {α : Type} (P : Emulator → Prop) (f : Emulator → α → Emulator)
    (hf : ∀ e a, P e → P (f e a)) :
    ∀ (l : List α) (e : Emulator), P e → P (l.foldl f e) := by
  intro l
  induction l with
  | nil => intro e hP; exact hP
  | cons a l ih => intro e hP; exact ih _ (hf e a hP)

/-- The column loop and the row loop of DRW write only `Display` and `v`. -/
theorem drawPixel_pc (vx vy row pixel : Nat) (e : Emulator) (col : Nat) :
    (drawPixel vx vy row pixel e col).pc = e.pc := by
  simp only [drawPixel]
  split_ifs <;> rfl

theorem drawRow_pc {vx vy : Nat} {e e' : Emulator} {row : Nat}
    (h : drawRow vx vy e row = some e') : e'.pc = e.pc := by
  simp only [drawRow] at h
  split_ifs at h
  cases h
  exact foldl_inv (fun s => s.pc = e.pc) _
    (fun s c hs => (drawPixel_pc vx vy row _ s c).trans hs) _ e rfl

theorem draw_pc {x y n : Nat} {e e' : Emulator} (h : draw x y n e = some e') :
    e'.pc = e.pc := by
  simp only [draw] at h
  split at h
  · rename_i e1 h1
    cases h
    exact foldlM_inv (fun s => s.pc = e.pc) (drawRow (e.v x) (e.v y))
      (fun s r s' hs hr => (drawRow_pc hr).trans hs) _ { e with v := setAt e.v 0xF 0 } e1 rfl h1
  · cases h

theorem exec8_pc {w x y : Nat} {e e' : Emulator} (h : exec8 w x y e = some e') :
    e'.pc = e.pc := by
  have hmap : (exec8 w x y e).map Emulator.pc = some e.pc := by
    simp only [exec8, apply_ite (Option.map Emulator.pc), Option.map_some', ite_self]
  rw [h] at hmap
  exact Option.some.inj hmap

theorem dumpStep_pc {e e' : Emulator} {k : Nat} (h : dumpStep e k = some e') :
    e'.pc = e.pc := by
  simp only [dumpStep] at h
  split_ifs at h
  cases h
  rfl

theorem loadStep_pc {e e' : Emulator} {k : Nat} (h : loadStep e k = some e') :
    e'.pc = e.pc := by
  simp only [loadStep] at h
  split_ifs at h
  cases h
  rfl

theorem execE_pc {w x : Nat} {e e' : Emulator} (h : execE w x e = some e') :
    e'.pc = if (w % 256 = 0x9E ∧ e.keypad (e.v x) = true) ∨
        (w % 256 = 0xA1 ∧ e.keypad (e.v x) = false) then (e.pc + 2) % 65536 else e.pc := by
  simp only [execE, and_00FF] at h
  split_ifs at h with h1 h2 h3 h4 h5 h6 <;> cases h <;> simp_all

theorem execF_07 {w : Nat} (x : Nat) (e : Emulator) (h : w % 256 = 0x07) :
    execF w x e = some { e with v := setAt e.v x e.delayTimer } := by
  simp [execF, and_00FF, h]

theorem execF_0A {w : Nat} (x : Nat) (e : Emulator) (h : w % 256 = 0x0A) :
    execF w x e =
      match (List.range 16).find? (fun j => e.keypad j) with
      | some j => some { e with v := setAt e.v x (j % 256) }
      | none => some { e with pc := (e.pc + 65536 - 2) % 65536 } := by
  simp only [execF, and_00FF, h]
  rw [if_pos trivial, if_neg (by decide)]

theorem execF_15 {w : Nat} (x : Nat) (e : Emulator) (h : w % 256 = 0x15) :
    execF w x e = some { e with delayTimer := e.v x } := by
  simp [execF, and_00FF, h]

theorem execF_18 {w : Nat} (x : Nat) (e : Emulator) (h : w % 256 = 0x18) :
    execF w x e = some { e with soundTimer := e.v x } := by
  simp [execF, and_00FF, h]

theorem execF_1E {w : Nat} (x : Nat) (e : Emulator) (h : w % 256 = 0x1E) :
    execF w x e = some { e with i := (e.i + e.v x) % 65536 } := by
  simp [execF, and_00FF, h]

theorem execF_29 {w : Nat} (x : Nat) (e : Emulator) (h : w % 256 = 0x29) :
    execF w x e = some { e with i := (FontStart + e.v x * 5) % 65536 } := by
  simp [execF, and_00FF, h]

theorem execF_55 {w : Nat} (x : Nat) (e : Emulator) (h : w % 256 = 0x55) :
    execF w x e = (List.range (x + 1)).foldlM dumpStep e := by
  simp [execF, and_00FF, h]

theorem execF_65 {w : Nat} (x : Nat) (e : Emulator) (h : w % 256 = 0x65) :
    execF w x e = (List.range (x + 1)).foldlM loadStep e := by
  simp [execF, and_00FF, h]

theorem execF_33 {w : Nat} (x : Nat) (e : Emulator) (h : w % 256 = 0x33) :
    execF w x e =
      if e.i < 4096 ∧ (e.i + 1) % 65536 < 4096 ∧ (e.i + 2) % 65536 < 4096 then
        some { e with memory := setAt (setAt (setAt e.memory e.i (e.v x / 100))
          ((e.i + 1) % 65536) ((e.v x / 10) % 10)) ((e.i + 2) % 65536) (e.v x % 10) }
      else none := by
  simp only [execF, and_00FF, h]
  by_cases h0 : e.i < 4096 <;> by_cases h1 : (e.i + 1) % 65536 < 4096 <;>
    by_cases h2 : (e.i + 2) % 65536 < 4096 <;> simp [h0, h1, h2]

theorem execF_other {w : Nat} (x : Nat) (e : Emulator)
    (h : w % 256 ≠ 0x07 ∧ w % 256 ≠ 0x0A ∧ w % 256 ≠ 0x15 ∧
        w % 256 ≠ 0x18 ∧ w % 256 ≠ 0x1E ∧ w % 256 ≠ 0x29 ∧ w % 256 ≠ 0x33 ∧
        w % 256 ≠ 0x55 ∧ w % 256 ≠ 0x65) :
    execF w x e = some e := by
  simp [execF, and_00FF, h]

theorem execF_pc {w x : Nat} {e e' : Emulator} (h : execF w x e = some e') :
    e'.pc = if w % 256 = 0x0A ∧ (∀ k, k < 16 → e.keypad k = false) then
        (e.pc + 65536 - 2) % 65536 else e.pc := by
  by_cases h0A : w % 256 = 0x0A
  · rw [execF_0A x e h0A] at h
    split at h
    · rename_i j hj
      cases h
      have hj' := List.find?_range_eq_some.mp hj
      have hnot : ¬ ∀ k, k < 16 → e.keypad k = false := by
        intro hall
        have := hall j (List.mem_range.mp hj'.2.1)
        simp [hj'.1] at this
      rw [if_neg (fun hc => hnot hc.2)]
    · rename_i hj
      cases h
      have hall : ∀ k, k < 16 → e.keypad k = false := by
        intro k hk
        have := List.find?_range_eq_none.mp hj k hk
        simpa using this
      rw [if_pos ⟨h0A, hall⟩]
  · rw [if_neg (fun hc => h0A hc.1)]
    by_cases h07 : w % 256 = 0x07
    · rw [execF_07 x e h07] at h; cases h; rfl
    by_cases h15 : w % 256 = 0x15
    · rw [execF_15 x e h15] at h; cases h; rfl
    by_cases h18 : w % 256 = 0x18
    · rw [execF_18 x e h18] at h; cases h; rfl
    by_cases h1E : w % 256 = 0x1E
    · rw [execF_1E x e h1E] at h; cases h; rfl
    by_cases h29 : w % 256 = 0x29
    · rw [execF_29 x e h29] at h; cases h; rfl
    by_cases h33 : w % 256 = 0x33
    · rw [execF_33 x e h33] at h
      split_ifs at h
      cases h; rfl
    by_cases h55 : w % 256 = 0x55
    · rw [execF_55 x e h55] at h
      exact foldlM_inv (fun s => s.pc = e.pc) dumpStep
        (fun s r s' hs hr => (dumpStep_pc hr).trans hs) _ e e' rfl h
    by_cases h65 : w % 256 = 0x65
    · rw [execF_65 x e h65] at h
      exact foldlM_inv (fun s => s.pc = e.pc) loadStep
        (fun s r s' hs hr => (loadStep_pc hr).trans hs) _ e e' rfl h
    rw [execF_other x e ⟨h07, h0A, h15, h18, h1E, h29, h33, h55, h65⟩] at h
    cases h; rfl

/-! ## The loops of DRW -/

theorem cellIndex_inj {vx vy r c r' c' : Nat} (hr : r < 32) (hr' : r' < 32)
    (hc : c < 64) (hc' : c' < 64) (h : cellIndex vx vy r c = cellIndex vx vy r' c') :
    r = r' ∧ c = c' := by
  simp only [cellIndex, DisplayHeight, DisplayWidth] at h
  omega

theorem drawPixel_lit {vx vy row pixel : Nat} (s : Emulator) {col : Nat}
    (hb : pixel &&& (0x80 >>> col) ≠ 0) :
    drawPixel vx vy row pixel s col =
      { s with
        v := if s.Display (cellIndex vx vy row col) = 1 then setAt s.v 0xF 1 else s.v
        Display := setAt s.Display (cellIndex vx vy row col)
          (s.Display (cellIndex vx vy row col) ^^^ 1) } := by
  simp only [drawPixel, if_pos hb, cellIndex]
  split_ifs <;> rfl

theorem DrawInv.pixel {e0 : Emulator} {vx vy k j : Nat} {s : Emulator}
    (h : DrawInv e0 vx vy k j s) (hk : k < 32) (hj : j < 8) :
    DrawInv e0 vx vy k (j + 1) (drawPixel vx vy k (e0.memory (e0.i + k)) s j) := by
  have hsplit : ∀ r c, processed k (j + 1) r c → processed k j r c ∨ (r = k ∧ c = j) := by
    intro r c hp; unfold processed at *; omega
  have hmono : ∀ r c, processed k j r c → processed k (j + 1) r c := by
    intro r c hp; unfold processed at *; omega
  have hnew : processed k (j + 1) k j := by unfold processed; omega
  have hold : ∀ r c, processed k j r c → cellIndex vx vy r c ≠ cellIndex vx vy k j := by
    intro r c hp heq
    unfold processed at hp
    have := cellIndex_inj (by omega) hk (by omega) (by omega) heq
    omega
  by_cases hb : lit e0 k j
  · have hcur : s.Display (cellIndex vx vy k j) = e0.Display (cellIndex vx vy k j) :=
      h.kept _ (fun r c hp _ => hold r c hp)
    rw [drawPixel_lit s hb]
    refine ⟨h.memory_eq, h.i_eq, ?_, ?_, ?_, ?_, ?_⟩
    · intro q hq
      show (if _ then setAt s.v 0xF 1 else s.v) q = _
      split
      · simp [setAt, hq, h.v_eq q hq]
      · exact h.v_eq q hq
    · intro r c hp hl
      show setAt s.Display _ _ _ = _
      rcases hsplit r c hp with hp' | ⟨rfl, rfl⟩
      · simp [setAt, hold r c hp', h.toggled r c hp' hl]
      · simp [setAt, hcur]
    · intro idx hidx
      show setAt s.Display _ _ _ = _
      have hne : idx ≠ cellIndex vx vy k j := fun he => hidx k j hnew hb he.symm
      simp only [setAt, if_neg hne]
      exact h.kept idx (fun r c hp hl => hidx r c (hmono r c hp) hl)
    · intro r c hp hl hone
      show (if _ then setAt s.v 0xF 1 else s.v) 0xF = 1
      rcases hsplit r c hp with hp' | ⟨rfl, rfl⟩
      · split
        · simp [setAt]
        · exact h.flag_set r c hp' hl hone
      · rw [if_pos (hcur.trans hone)]
        simp [setAt]
    · intro hall
      show (if _ then setAt s.v 0xF 1 else s.v) 0xF = _
      rw [if_neg (by rw [hcur]; exact hall k j hnew hb)]
      exact h.flag_kept (fun r c hp hl => hall r c (hmono r c hp) hl)
  · have hskip : drawPixel vx vy k (e0.memory (e0.i + k)) s j = s := by
      simp only [drawPixel]
      exact if_neg hb
    rw [hskip]
    have hsub : ∀ r c, processed k (j + 1) r c → lit e0 r c → processed k j r c := by
      intro r c hp hl
      rcases hsplit r c hp with hp' | ⟨rfl, rfl⟩
      · exact hp'
      · exact absurd hl hb
    exact ⟨h.memory_eq, h.i_eq, h.v_eq,
      fun r c hp hl => h.toggled r c (hsub r c hp hl) hl,
      fun idx hidx => h.kept idx (fun r c hp hl => hidx r c (hmono r c hp) hl),
      fun r c hp hl => h.flag_set r c (hsub r c hp hl) hl,
      fun hall => h.flag_kept (fun r c hp hl => hall r c (hmono r c hp) hl)⟩

theorem DrawInv.cols {e0 : Emulator} {vx vy k : Nat} {s : Emulator}
    (h : DrawInv e0 vx vy k 0 s) (hk : k < 32) :
    ∀ j, j ≤ 8 → DrawInv e0 vx vy k j
      ((List.range j).foldl (drawPixel vx vy k (e0.memory (e0.i + k))) s) := by
  intro j
  induction j with
  | zero => intro _; exact h
  | succ j ih =>
    intro hj
    rw [List.range_succ, List.foldl_append]
    exact (ih (by omega)).pixel hk (by omega)

theorem DrawInv.of_processed_iff {e0 : Emulator} {vx vy k j k' j' : Nat} {s : Emulator}
    (hiff : ∀ r c, processed k' j' r c ↔ processed k j r c) (h : DrawInv e0 vx vy k j s) :
    DrawInv e0 vx vy k' j' s :=
  ⟨h.memory_eq, h.i_eq, h.v_eq,
    fun r c hp hl => h.toggled r c ((hiff r c).mp hp) hl,
    fun idx hidx => h.kept idx (fun r c hp hl => hidx r c ((hiff r c).mpr hp) hl),
    fun r c hp hl => h.flag_set r c ((hiff r c).mp hp) hl,
    fun hall => h.flag_kept (fun r c hp hl => hall r c ((hiff r c).mpr hp) hl)⟩

theorem DrawInv.start (e0 : Emulator) (vx vy : Nat) : DrawInv e0 vx vy 0 0 e0 := by
  have hnone : ∀ r c, ¬ processed 0 0 r c := by
    intro r c hp; unfold processed at hp; omega
  exact ⟨rfl, rfl, fun _ _ => rfl, fun r c hp => absurd hp (hnone r c), fun _ _ => rfl,
    fun r c hp => absurd hp (hnone r c), fun _ => rfl⟩

theorem DrawInv.rows (e0 : Emulator) (vx vy n : Nat) (hn : n ≤ 32)
    (hmem : ∀ r, r < n → e0.i + r < 4096) :
    ∀ k, k ≤ n → ∃ s, (List.range k).foldlM (drawRow vx vy) e0 = some s ∧
      DrawInv e0 vx vy k 0 s := by
  intro k
  induction k with
  | zero => intro _; exact ⟨e0, rfl, DrawInv.start e0 vx vy⟩
  | succ k ih =>
    intro hk
    obtain ⟨s, hs, hinv⟩ := ih (by omega)
    have haddr : (s.i + k) % 65536 = e0.i + k := by
      have := hmem k (by omega)
      rw [hinv.i_eq]; omega
    have hlt : e0.i + k < 4096 := hmem k (by omega)
    refine ⟨(List.range 8).foldl (drawPixel vx vy k (e0.memory (e0.i + k))) s, ?_, ?_⟩
    · rw [List.range_succ, List.foldlM_append, hs]
      simp [drawRow, haddr, hlt, hinv.memory_eq]
    · refine DrawInv.of_processed_iff ?_ (hinv.cols (by omega) 8 (le_refl 8))
      intro r c
      unfold processed
      omega

/-- DRW with the sprite inside memory succeeds, and its result satisfies the loop
invariant at row counter `n`. -/
theorem draw_eq (x y n : Nat) (e : Emulator) (hn : n ≤ 32)
    (hmem : ∀ r, r < n → e.i + r < 4096) :
    ∃ s, draw x y n e = some { s with DrawFlag := true } ∧
      DrawInv { e with v := setAt e.v 0xF 0 } (e.v x) (e.v y) n 0 s := by
  obtain ⟨s, hs, hinv⟩ :=
    DrawInv.rows { e with v := setAt e.v 0xF 0 } (e.v x) (e.v y) n hn hmem n (le_refl n)
  refine ⟨s, ?_, hinv⟩
  simp only [draw, hs]

theorem lit_iff_testBit (e : Emulator) (r : Nat) {c : Nat} (hc : c < 8) :
    lit e r c ↔ (e.memory (e.i + r)).testBit (7 - c) = true := by
  have hpow : (0x80 : Nat) >>> c = 2 ^ (7 - c) := by
    interval_cases c <;> rfl
  unfold lit
  rw [hpow, Nat.and_two_pow]
  cases (e.memory (e.i + r)).testBit (7 - c) <;> simp

theorem execute_groupD (rnd : Nat) {w : Nat} (e : Emulator) (h : w / 4096 % 16 = 13) :
    execute rnd w e = draw (w / 256 % 16) (w / 16 % 16) (w % 16) e := by
  simp [execute, and_F000, shr_0F00, shr_00F0, and_000F, h]

/-- A step on a `DXYN` word whose sprite lies inside memory succeeds; its result is
a state satisfying the loop invariant at row counter `N`, with the dirty flag set. -/
theorem EmulateCycle_draw (rnd : Nat) (e : Emulator) (X Y N : Nat)
    (hX : X < 16) (hY : Y < 16) (hN : N < 16)
    (hf : fetch e = some (0xD000 + 256 * X + 16 * Y + N))
    (hmem : ∀ r, r < N → e.i + r < 4096) :
    ∃ s, EmulateCycle rnd e = some { s with DrawFlag := true } ∧
      DrawInv { e with pc := (e.pc + 2) % 65536, v := setAt e.v 0xF 0 }
        (e.v X) (e.v Y) N 0 s := by
  have hg : (0xD000 + 256 * X + 16 * Y + N) / 4096 % 16 = 13 := by omega
  have hx : (0xD000 + 256 * X + 16 * Y + N) / 256 % 16 = X := by omega
  have hy : (0xD000 + 256 * X + 16 * Y + N) / 16 % 16 = Y := by omega
  have hn : (0xD000 + 256 * X + 16 * Y + N) % 16 = N := by omega
  rw [EmulateCycle_of_fetch rnd hf, execute_groupD rnd _ hg, hx, hy, hn]
  exact draw_eq X Y N { e with pc := (e.pc + 2) % 65536 } (by omega) hmem

/-! ## Timers -/

theorem ticks_delayTimer (k : Nat) (e : Emulator) :
    (ticks k e).delayTimer = e.delayTimer - k := by
  induction k generalizing e with
  | zero => rfl
  | succ k ih =>
    rw [ticks, ih]
    by_cases h1 : e.delayTimer > 0 <;> by_cases h2 : e.soundTimer > 0 <;>
      simp [UpdateTimers, h1, h2] <;> omega

theorem ticks_soundTimer (k : Nat) (e : Emulator) :
    (ticks k e).soundTimer = e.soundTimer - k := by
  induction k generalizing e with
  | zero => rfl
  | succ k ih =>
    rw [ticks, ih]
    by_cases h1 : e.delayTimer > 0 <;> by_cases h2 : e.soundTimer > 0 <;>
      simp [UpdateTimers, h1, h2] <;> omega

/-- C10. One call of `UpdateTimers` turns a delay timer `d > 0` into `d - 1` and leaves
a delay timer `0` at `0`, does the same, independently, to the sound timer, and changes
no other field of the state; hence, the timers being bytes, 255 ticks leave both at 0. -/
theorem UpdateTimers_tick (e : Emulator)
    (hd : e.delayTimer < 256) (hs : e.soundTimer < 256) :
    (UpdateTimers e).delayTimer = (if e.delayTimer > 0 then e.delayTimer - 1 else 0) ∧
    (UpdateTimers e).soundTimer = (if e.soundTimer > 0 then e.soundTimer - 1 else 0) ∧
    (UpdateTimers e).memory = e.memory ∧ (UpdateTimers e).v = e.v ∧
    (UpdateTimers e).i = e.i ∧ (UpdateTimers e).pc = e.pc ∧
    (UpdateTimers e).sp = e.sp ∧ (UpdateTimers e).stack = e.stack ∧
    (UpdateTimers e).Display = e.Display ∧ (UpdateTimers e).DrawFlag = e.DrawFlag ∧
    (UpdateTimers e).keypad = e.keypad ∧
    (ticks 255 e).delayTimer = 0 ∧ (ticks 255 e).soundTimer = 0 := by
  have h255 : (ticks 255 e).delayTimer = 0 ∧ (ticks 255 e).soundTimer = 0 := by
    rw [ticks_delayTimer, ticks_soundTimer]; omega
  by_cases h1 : e.delayTimer > 0 <;> by_cases h2 : e.soundTimer > 0 <;>
    simp [UpdateTimers, h1, h2, h255] <;> omega

theorem UpdateTimers_tick_witness :
    (UpdateTimers timerState).delayTimer = (if timerState.delayTimer > 0 then timerState.delayTimer - 1 else 0) ∧
    (UpdateTimers timerState).soundTimer = (if timerState.soundTimer > 0 then timerState.soundTimer - 1 else 0) ∧
    (UpdateTimers timerState).memory = timerState.memory ∧ (UpdateTimers timerState).v = timerState.v ∧
    (UpdateTimers timerState).i = timerState.i ∧ (UpdateTimers timerState).pc = timerState.pc ∧
    (UpdateTimers timerState).sp = timerState.sp ∧ (UpdateTimers timerState).stack = timerState.stack ∧
    (UpdateTimers timerState).Display = timerState.Display ∧ (UpdateTimers timerState).DrawFlag = timerState.DrawFlag ∧
    (UpdateTimers timerState).keypad = timerState.keypad ∧
    (ticks 255 timerState).delayTimer = 0 ∧ (ticks 255 timerState).soundTimer = 0 :=
  UpdateTimers_tick timerState (by decide) (by decide)

/-! ## Register-register arithmetic -/

/-- C2 (amended). `8XY4` on a well-formed state: the step succeeds and `VX` becomes
`(a + b) mod 256` for every `X`, `Y`; when `X` is not `F`, `VF` becomes 1 if
`a + b > 255` and 0 otherwise.  (For `X = F` the destination write, done last, is
what `VF` holds.) -/
theorem add_registers (rnd : Nat) (e : Emulator) (X Y : Nat) (hwf : e.WF)
    (hX : X < 16) (hY : Y < 16) (hf : fetch e = some (0x8004 + 256 * X + 16 * Y)) :
    ∃ e', EmulateCycle rnd e = some e' ∧
      e'.v X = (e.v X + e.v Y) % 256 ∧
      (X ≠ 0xF → e'.v 0xF = if e.v X + e.v Y > 255 then 1 else 0) := by
  have hg : (0x8004 + 256 * X + 16 * Y) / 4096 % 16 = 8 := by omega
  have hx : (0x8004 + 256 * X + 16 * Y) / 256 % 16 = X := by omega
  have hy : (0x8004 + 256 * X + 16 * Y) / 16 % 16 = Y := by omega
  have hk : (0x8004 + 256 * X + 16 * Y) % 16 = 4 := by omega
  have ha := hwf.v_lt X
  have hb := hwf.v_lt Y
  rw [EmulateCycle_of_fetch rnd hf, execute_group8 rnd _ hg, hx, hy]
  simp only [exec8, and_000F, hk]
  refine ⟨_, rfl, ?_, ?_⟩
  · simp [setAt]; omega
  · intro hXF
    have h1 : (15 : Nat) ≠ X := fun h => hXF h.symm
    by_cases hs : (e.v X + e.v Y) % 65536 > 255
    · have : e.v X + e.v Y > 255 := by omega
      simp [setAt, h1, hs, this]
    · have : ¬ e.v X + e.v Y > 255 := by omega
      simp [setAt, h1, hs, this]

theorem add_registers_witness :
    ∃ e', EmulateCycle 0 addState = some e' ∧
      e'.v 0 = (addState.v 0 + addState.v 1) % 256 ∧
      (0 ≠ 0xF → e'.v 0xF = if addState.v 0 + addState.v 1 > 255 then 1 else 0) :=
  add_registers 0 addState 0 1 (machine_WF (by decide) (by decide)) (by decide) (by decide) rfl

/-- C2 (as stated) fails for `X = F`: with `VF = 3`, `V0 = 4` the word `8F04` leaves
`VF = 7`, the sum, whereas the claim asks for the carry flag 0 in `VF`. -/
theorem add_into_flag_counterexample :
    fetch addIntoFlagState = some 0x8F04 ∧
    addIntoFlagState.v 0xF = 3 ∧ addIntoFlagState.v 0 = 4 ∧
    (EmulateCycle 0 addIntoFlagState).map (fun e => e.v 0xF) = some 7 :=
  ⟨rfl, rfl, rfl, rfl⟩

/-- C3 (amended). `8XY5` on a well-formed state with neither `X` nor `Y` equal to `F`:
the step succeeds, `VF` becomes 1 if `a > b` strictly and 0 otherwise, and `VX`
becomes `(a - b) mod 256`. -/
theorem sub_registers (rnd : Nat) (e : Emulator) (X Y : Nat) (hwf : e.WF)
    (hX : X < 16) (hY : Y < 16) (hXF : X ≠ 0xF) (hYF : Y ≠ 0xF)
    (hf : fetch e = some (0x8005 + 256 * X + 16 * Y)) :
    ∃ e', EmulateCycle rnd e = some e' ∧
      e'.v 0xF = (if e.v X > e.v Y then 1 else 0) ∧
      (e'.v X : Int) = ((e.v X : Int) - (e.v Y : Int)) % 256 := by
  have hg : (0x8005 + 256 * X + 16 * Y) / 4096 % 16 = 8 := by omega
  have hx : (0x8005 + 256 * X + 16 * Y) / 256 % 16 = X := by omega
  have hy : (0x8005 + 256 * X + 16 * Y) / 16 % 16 = Y := by omega
  have hk : (0x8005 + 256 * X + 16 * Y) % 16 = 5 := by omega
  have ha := hwf.v_lt X
  have hb := hwf.v_lt Y
  have h1 : (15 : Nat) ≠ X := fun h => hXF h.symm
  rw [EmulateCycle_of_fetch rnd hf, execute_group8 rnd _ hg, hx, hy]
  simp only [exec8, and_000F, hk]
  refine ⟨_, rfl, ?_, ?_⟩
  · by_cases hs : e.v Y < e.v X
    · simp [setAt, h1, hXF, hYF, hs]
    · simp [setAt, h1, hXF, hYF, hs]
  · by_cases hs : e.v Y < e.v X
    · simp [setAt, h1, hXF, hYF, hs]; omega
    · simp [setAt, h1, hXF, hYF, hs]; omega

theorem sub_registers_witness :
    ∃ e', EmulateCycle 0 subState = some e' ∧
      e'.v 0xF = (if subState.v 0 > subState.v 1 then 1 else 0) ∧
      (e'.v 0 : Int) = ((subState.v 0 : Int) - (subState.v 1 : Int)) % 256 :=
  sub_registers 0 subState 0 1 (machine_WF (by decide) (by decide)) (by decide) (by decide)
    (by decide) (by decide) rfl

/-- C3 (as stated) fails when `X` or `Y` is `F`.  With `VF = 5`, `V0 = 5`: the word
`8F05` leaves `VF = 251` (claimed: flag 0 and destination 0), and the word `80F5`
leaves `VF = 1` and `V0 = 4` (claimed: flag 0 and destination 0). -/
theorem sub_flag_operand_counterexample :
    fetch subIntoFlagState = some 0x8F05 ∧
    subIntoFlagState.v 0xF = 5 ∧ subIntoFlagState.v 0 = 5 ∧
    (EmulateCycle 0 subIntoFlagState).map (fun e => e.v 0xF) = some 251 ∧
    fetch subFromFlagState = some 0x80F5 ∧
    subFromFlagState.v 0 = 5 ∧ subFromFlagState.v 0xF = 5 ∧
    (EmulateCycle 0 subFromFlagState).map (fun e => (e.v 0, e.v 0xF)) = some (4, 1) :=
  ⟨rfl, rfl, rfl, rfl, rfl, rfl, rfl, rfl⟩

/-- C4 (amended). Shifts with `X` different from `F`: after `8XY6` the step has
succeeded, `VF` is bit 0 of `a` and `VX` is `a >> 1`; after `8XYE` the step has
succeeded, `VF` is bit 7 of `a` and `VX` is `(a << 1) mod 256`. -/
theorem shift_registers (rnd : Nat) (e1 e2 : Emulator) (X Y : Nat)
    (hX : X < 16) (hY : Y < 16) (hXF : X ≠ 0xF)
    (hR : fetch e1 = some (0x8006 + 256 * X + 16 * Y))
    (hL : fetch e2 = some (0x800E + 256 * X + 16 * Y)) :
    (∃ e', EmulateCycle rnd e1 = some e' ∧
      e'.v 0xF = e1.v X % 2 ∧ e'.v X = e1.v X / 2) ∧
    (∃ e', EmulateCycle rnd e2 = some e' ∧
      e'.v 0xF = e2.v X / 128 % 2 ∧ e'.v X = (e2.v X * 2) % 256) := by
  have h1 : (15 : Nat) ≠ X := fun h => hXF h.symm
  constructor
  · have hg : (0x8006 + 256 * X + 16 * Y) / 4096 % 16 = 8 := by omega
    have hx : (0x8006 + 256 * X + 16 * Y) / 256 % 16 = X := by omega
    have hk : (0x8006 + 256 * X + 16 * Y) % 16 = 6 := by omega
    rw [EmulateCycle_of_fetch rnd hR, execute_group8 rnd _ hg, hx]
    simp only [exec8, and_000F, hk]
    refine ⟨_, rfl, ?_, ?_⟩
    · simp [setAt, h1]
    · simp [setAt, hXF, Nat.shiftRight_eq_div_pow]
  · have hg : (0x800E + 256 * X + 16 * Y) / 4096 % 16 = 8 := by omega
    have hx : (0x800E + 256 * X + 16 * Y) / 256 % 16 = X := by omega
    have hk : (0x800E + 256 * X + 16 * Y) % 16 = 14 := by omega
    rw [EmulateCycle_of_fetch rnd hL, execute_group8 rnd _ hg, hx]
    simp only [exec8, and_000F, hk]
    refine ⟨_, rfl, ?_, ?_⟩
    · have hm : e2.v X &&& 0x80 = (e2.v X / 128 % 2) * 128 := and_mask (e2.v X) 1 7
      simp [setAt, h1, hm, Nat.shiftRight_eq_div_pow]
    · simp [setAt, hXF, Nat.shiftLeft_eq]

theorem shift_registers_witness :
    (∃ e', EmulateCycle 0 shrState = some e' ∧
      e'.v 0xF = shrState.v 0 % 2 ∧ e'.v 0 = shrState.v 0 / 2) ∧
    (∃ e', EmulateCycle 0 shlState = some e' ∧
      e'.v 0xF = shlState.v 0 / 128 % 2 ∧ e'.v 0 = (shlState.v 0 * 2) % 256) :=
  shift_registers 0 shrState shlState 0 1 (by decide) (by decide) (by decide) rfl rfl

/-- C4 (as stated) fails for `X = F`.  The word `8F06` with `VF = 3` leaves `VF = 0`
(claimed: `VF` = bit 0 of 3 = 1 = 3 >> 1), and the word `8F0E` with `VF = 0x81` leaves
`VF = 2` (claimed: `VF` = bit 7 of 0x81 = 1). -/
theorem shift_flag_register_counterexample :
    fetch shrFlagState = some 0x8F06 ∧ shrFlagState.v 0xF = 3 ∧
    (EmulateCycle 0 shrFlagState).map (fun e => e.v 0xF) = some 0 ∧
    fetch shlFlagState = some 0x8F0E ∧ shlFlagState.v 0xF = 0x81 ∧
    (EmulateCycle 0 shlFlagState).map (fun e => e.v 0xF) = some 2 :=
  ⟨rfl, rfl, rfl, rfl, rfl, rfl⟩

/-! ## Call and return -/

/-- C7. From a state with `sp < 16` whose PC points at a call word `2NNN`, the memory
at `NNN` holding the return word `00EE`, two successive steps succeed and leave
`PC = p + 2` and the stack pointer at its original value. -/
theorem call_return_roundtrip (r1 r2 : Nat) (e : Emulator) (NNN : Nat) (hN : NNN < 4096)
    (hsp : e.sp < 16) (hcall : fetch e = some (0x2000 + NNN))
    (hret : fetch { e with pc := NNN } = some 0x00EE) :
    ∃ e1 e2, EmulateCycle r1 e = some e1 ∧ EmulateCycle r2 e1 = some e2 ∧
      e2.pc = e.pc + 2 ∧ e2.sp = e.sp := by
  have hpc := fetch_pc_lt hcall
  have hg : (0x2000 + NNN) / 4096 % 16 = 2 := by omega
  have hn : (0x2000 + NNN) % 4096 = NNN := by omega
  have hpc2 : (e.pc + 2) % 65536 = e.pc + 2 := by omega
  have hsp1 : ((e.sp + 1) % 256 + 255) % 256 = e.sp := by omega
  have hstep1 : EmulateCycle r1 e = some
      { e with stack := setAt e.stack e.sp (e.pc + 2), sp := (e.sp + 1) % 256, pc := NNN } := by
    rw [EmulateCycle_of_fetch r1 hcall, execute_call r1 _ hg, hn, hpc2]
    simp only [hsp, if_true]
  refine ⟨_, { e with stack := setAt e.stack e.sp (e.pc + 2), pc := e.pc + 2 },
    hstep1, ?_, rfl, rfl⟩
  have hf2 : fetch { e with stack := setAt e.stack e.sp (e.pc + 2), sp := (e.sp + 1) % 256, pc := NNN } = some 0x00EE :=
    (fetch_congr rfl rfl).trans hret
  rw [EmulateCycle_of_fetch r2 hf2, execute_group0 r2 _ (by decide)]
  simp [exec0, hsp1, hsp, setAt]

theorem call_return_roundtrip_witness :
    ∃ e1 e2, EmulateCycle 0 callState = some e1 ∧ EmulateCycle 0 e1 = some e2 ∧
      e2.pc = callState.pc + 2 ∧ e2.sp = callState.sp :=
  call_return_roundtrip 0 0 callState 0x204 (by decide) (by decide) rfl rfl

/-! ## Unsupported instruction words -/

/-- C8. A fetched word matching no defined case (`0NNN` other than `00E0`, `00EE`;
`8XYk` with `k` in 8, 9, A, B, C, D, F; `EXkk` with `kk` not 9E, A1; `FXkk` with `kk`
not one of 07, 0A, 15, 18, 1E, 29, 33, 55, 65) makes the step succeed with every
field of the state unchanged except `PC`, which becomes `PC + 2`. -/
theorem unsupported_word_only_advances (rnd : Nat) (e : Emulator) (w : Nat)
    (hf : fetch e = some w)
    (hw : (w / 4096 = 0 ∧ w ≠ 0x00E0 ∧ w ≠ 0x00EE) ∨
      (w / 4096 = 8 ∧ (w % 16 = 8 ∨ w % 16 = 9 ∨ w % 16 = 0xA ∨ w % 16 = 0xB ∨
        w % 16 = 0xC ∨ w % 16 = 0xD ∨ w % 16 = 0xF)) ∨
      (w / 4096 = 0xE ∧ w % 256 ≠ 0x9E ∧ w % 256 ≠ 0xA1) ∨
      (w / 4096 = 0xF ∧ w % 256 ≠ 0x07 ∧ w % 256 ≠ 0x0A ∧ w % 256 ≠ 0x15 ∧
        w % 256 ≠ 0x18 ∧ w % 256 ≠ 0x1E ∧ w % 256 ≠ 0x29 ∧ w % 256 ≠ 0x33 ∧
        w % 256 ≠ 0x55 ∧ w % 256 ≠ 0x65)) :
    EmulateCycle rnd e = some { e with pc := e.pc + 2 } := by
  have hpc := fetch_pc_lt hf
  have hpc2 : (e.pc + 2) % 65536 = e.pc + 2 := by omega
  rw [EmulateCycle_of_fetch rnd hf, hpc2]
  rcases hw with ⟨hg, h1, h2⟩ | ⟨hg, hk⟩ | ⟨hg, h1, h2⟩ | ⟨hg, h⟩
  · rw [execute_group0 rnd _ (by omega)]
    simp [exec0, h1, h2]
  · rw [execute_group8 rnd _ (by omega)]
    simp only [exec8, and_000F]
    rcases hk with hk | hk | hk | hk | hk | hk | hk <;> simp [hk]
  · rw [execute_groupE rnd _ (by omega)]
    simp [execE, and_00FF, h1, h2]
  · rw [execute_groupF rnd _ (by omega)]
    simp [execF, and_00FF, h]

theorem unsupported_word_only_advances_witness :
    EmulateCycle 0 unknownState = some { unknownState with pc := unknownState.pc + 2 } :=
  unsupported_word_only_advances 0 unknownState 0xFFFF rfl (by decide)

/-! ## Wait for key -/

/-- C9. `FX0A`: if some key is pressed the step succeeds, `VX` receives the smallest
pressed key index, `PC` advances by 2 and nothing else changes; if no key is pressed
the step succeeds and returns the state it started from, `PC` included, and so does
any number of further steps. -/
theorem wait_for_key (rnd : Nat) (e : Emulator) (X : Nat) (hX : X < 16)
    (hf : fetch e = some (0xF00A + 256 * X)) :
    ((∃ k, k < 16 ∧ e.keypad k = true) →
      ∃ k, k < 16 ∧ e.keypad k = true ∧ (∀ j, j < k → e.keypad j = false) ∧
        EmulateCycle rnd e = some { e with v := setAt e.v X k, pc := e.pc + 2 }) ∧
    ((∀ k, k < 16 → e.keypad k = false) →
      EmulateCycle rnd e = some e ∧ ∀ n, cycles rnd n e = some e) := by
  have hpc := fetch_pc_lt hf
  have hpc2 : (e.pc + 2) % 65536 = e.pc + 2 := by omega
  have hg : (0xF00A + 256 * X) / 4096 % 16 = 15 := by omega
  have hx : (0xF00A + 256 * X) / 256 % 16 = X := by omega
  have hk : (0xF00A + 256 * X) % 256 = 0x0A := by omega
  constructor
  · intro hex
    have hlt := (Nat.find_spec hex).1
    have hpress := (Nat.find_spec hex).2
    have hmin : ∀ j, j < Nat.find hex → e.keypad j = false := by
      intro j hj
      have := Nat.find_min hex hj
      have hj16 : j < 16 := by omega
      simpa [hj16] using this
    refine ⟨Nat.find hex, hlt, hpress, hmin, ?_⟩
    have hfind : (List.range 16).find? (fun j => e.keypad j) = some (Nat.find hex) :=
      List.find?_range_eq_some.mpr
        ⟨hpress, List.mem_range.mpr hlt, fun j hj => by simp [hmin j hj]⟩
    have hmod : Nat.find hex % 256 = Nat.find hex := by omega
    rw [EmulateCycle_of_fetch rnd hf, execute_groupF rnd _ hg, hx, hpc2]
    simp [execF, and_00FF, hk, hfind, hmod]
  · intro hnone
    have hfind : (List.range 16).find? (fun j => e.keypad j) = none :=
      List.find?_range_eq_none.mpr (fun j hj => by simp [hnone j hj])
    have hback : (e.pc + 2 + 65536 - 2) % 65536 = e.pc := by omega
    have hstep : EmulateCycle rnd e = some e := by
      rw [EmulateCycle_of_fetch rnd hf, execute_groupF rnd _ hg, hx, hpc2]
      simp only [execF, and_00FF, hk, hfind]
      rw [if_pos trivial, hback, if_neg (by decide)]
    refine ⟨hstep, ?_⟩
    intro n
    induction n with
    | zero => rfl
    | succ n ih => simp [cycles, hstep, ih]

theorem wait_for_key_witness :
    (∃ k, k < 16 ∧ keyWaitState.keypad k = true ∧
      (∀ j, j < k → keyWaitState.keypad j = false) ∧
      EmulateCycle 0 keyWaitState =
        some { keyWaitState with v := setAt keyWaitState.v 3 k, pc := keyWaitState.pc + 2 }) ∧
    (EmulateCycle 0 keyIdleState = some keyIdleState ∧
      cycles 0 3 keyIdleState = some keyIdleState) :=
  ⟨(wait_for_key 0 keyWaitState 3 (by decide) rfl).1 ⟨5, by decide, rfl⟩,
   ((wait_for_key 0 keyIdleState 3 (by decide) rfl).2 (fun _ _ => rfl)).1,
   ((wait_for_key 0 keyIdleState 3 (by decide) rfl).2 (fun _ _ => rfl)).2 3⟩

/-! ## Program counter -/

/-- C1. PC transition law of `EmulateCycle`: on every well-formed state on which a
step succeeds, the new PC is the one the specification's law `specNextPC` gives for
the fetched word. -/
theorem pc_transition (rnd : Nat) (e e' : Emulator) (w : Nat) (hwf : e.WF)
    (hf : fetch e = some w) (hs : EmulateCycle rnd e = some e') :
    e'.pc = specNextPC e w := by
  have hw := fetch_lt hwf hf
  have hpc := fetch_pc_lt hf
  have hsp := hwf.sp_lt
  have hpc2 : (e.pc + 2) % 65536 = e.pc + 2 := by omega
  have hpc4 : (e.pc + 2 + 2) % 65536 = e.pc + 4 := by omega
  have hpc4' : (e.pc + 4) % 65536 = e.pc + 4 := by omega
  rw [EmulateCycle_of_fetch rnd hf, hpc2] at hs
  have hcases : w / 4096 = 0 ∨ w / 4096 = 1 ∨ w / 4096 = 2 ∨ w / 4096 = 3 ∨
      w / 4096 = 4 ∨ w / 4096 = 5 ∨ w / 4096 = 6 ∨ w / 4096 = 7 ∨ w / 4096 = 8 ∨
      w / 4096 = 9 ∨ w / 4096 = 10 ∨ w / 4096 = 11 ∨ w / 4096 = 12 ∨ w / 4096 = 13 ∨
      w / 4096 = 14 ∨ w / 4096 = 15 := by omega
  rcases hcases with hg | hg | hg | hg | hg | hg | hg | hg | hg | hg | hg | hg | hg | hg | hg | hg
  · -- 0x0000
    rw [execute_group0 rnd _ (by omega)] at hs
    simp only [exec0] at hs
    split_ifs at hs with h1 h2 h3
    · cases hs; subst h1; simp [specNextPC, hpc2]
    · cases hs; subst h2
      have : (e.sp + 255) % 256 = e.sp - 1 := by omega
      simp [specNextPC, this]
    · cases hs
      simp [specNextPC, hg, h1, h2, hpc2]
  · -- 0x1000
    have hne : w ≠ 238 := by omega
    simp [execute, and_F000, and_0FFF, hg] at hs
    cases hs
    simp [specNextPC, hg]
  · -- 0x2000
    rw [execute_call rnd _ (by omega)] at hs
    split_ifs at hs
    cases hs
    simp [specNextPC, hg]
  · -- 0x3000
    have hne : w ≠ 238 := by omega
    simp [execute, and_F000, shr_0F00, and_00FF, hg] at hs
    split_ifs at hs with hc <;> cases hs <;> simp [specNextPC, hg, hne, hc, hpc2, hpc4, hpc4']
  · -- 0x4000
    have hne : w ≠ 238 := by omega
    simp [execute, and_F000, shr_0F00, and_00FF, hg] at hs
    split_ifs at hs with hc <;> cases hs <;> simp [specNextPC, hg, hne, hc, hpc2, hpc4, hpc4']
  · -- 0x5000
    have hne : w ≠ 238 := by omega
    simp [execute, and_F000, shr_0F00, shr_00F0, hg] at hs
    split_ifs at hs with hc <;> cases hs <;> simp [specNextPC, hg, hne, hc, hpc2, hpc4, hpc4']
  · -- 0x6000
    have hne : w ≠ 238 := by omega
    simp [execute, and_F000, hg] at hs
    cases hs
    simp [specNextPC, hg, hne, hpc2]
  · -- 0x7000
    have hne : w ≠ 238 := by omega
    simp [execute, and_F000, hg] at hs
    cases hs
    simp [specNextPC, hg, hne, hpc2]
  · -- 0x8000
    have hne : w ≠ 238 := by omega
    rw [execute_group8 rnd _ (by omega)] at hs
    rw [exec8_pc hs]
    simp [specNextPC, hg, hne, hpc2]
  · -- 0x9000
    have hne : w ≠ 238 := by omega
    simp [execute, and_F000, shr_0F00, shr_00F0, hg] at hs
    split_ifs at hs with hc <;> cases hs <;> simp [specNextPC, hg, hne, hc, hpc2, hpc4, hpc4']
  · -- 0xA000
    have hne : w ≠ 238 := by omega
    simp [execute, and_F000, hg] at hs
    cases hs
    simp [specNextPC, hg, hne, hpc2]
  · -- 0xB000
    have hne : w ≠ 238 := by omega
    simp [execute, and_F000, and_0FFF, hg] at hs
    cases hs
    simp [specNextPC, hg]
  · -- 0xC000
    have hne : w ≠ 238 := by omega
    simp [execute, and_F000, hg] at hs
    cases hs
    simp [specNextPC, hg, hne, hpc2]
  · -- 0xD000
    have hne : w ≠ 238 := by omega
    simp [execute, and_F000, hg] at hs
    rw [draw_pc hs]
    simp [specNextPC, hg, hne, hpc2]
  · -- 0xE000
    have hne : w ≠ 238 := by omega
    rw [execute_groupE rnd _ (by omega)] at hs
    rw [execE_pc hs]
    simp only [specNextPC, hg, hne]
    by_cases h9E : w % 256 = 0x9E <;> by_cases hA1 : w % 256 = 0xA1 <;>
      by_cases hkey : e.keypad (e.v (w / 256 % 16)) = true <;>
      simp [h9E, hA1, hkey, hpc2, hpc4, hpc4']
  · -- 0xF000
    have hne : w ≠ 238 := by omega
    rw [execute_groupF rnd _ (by omega)] at hs
    rw [execF_pc hs]
    simp only [specNextPC, hg, hne]
    have hback : (e.pc + 2 + 65536 - 2) % 65536 = e.pc := by omega
    by_cases hc : w % 256 = 0x0A ∧ (∀ k, k < 16 → e.keypad k = false)
    · rw [if_pos hc, hback]
      simp only [hc.1, reduceCtorEq, Nat.reduceEqDiff, false_and, and_false, or_self,
        if_false, true_and]
      rw [if_pos hc.2]
    · rw [if_neg hc]
      simp only [Nat.reduceEqDiff, false_and, and_false, or_self, if_false, true_and]
      rw [if_neg hc, hpc2]

theorem pc_transition_witness :
    ({ skipState with pc := 0x204 } : Emulator).pc = specNextPC skipState 0x3007 :=
  pc_transition 0 skipState { skipState with pc := 0x204 } 0x3007
    (machine_WF (by decide) (by decide)) rfl rfl

/-! ## Draw sprite -/

/-- C5. `DXYN` with the sprite bytes inside memory: the step succeeds, the dirty flag
is true afterwards, and the display cell at row `r'`, column `c'` is XORed with 1 if
some sprite position `(r, c)`, `r < N`, `c < 8`, with bit `7 - c` of `memory[I + r]`
set, has `(VY + r) mod 32 = r'` and `(VX + c) mod 64 = c'`, and is unchanged if there
is no such position. -/
theorem draw_sprite_blit (rnd : Nat) (e : Emulator) (X Y N : Nat)
    (hX : X < 16) (hY : Y < 16) (hN : N < 16)
    (hf : fetch e = some (0xD000 + 256 * X + 16 * Y + N))
    (hmem : ∀ r, r < N → e.i + r < 4096) :
    ∃ e', EmulateCycle rnd e = some e' ∧ e'.DrawFlag = true ∧
      ∀ r' c', r' < 32 → c' < 64 →
        ((∃ r c, r < N ∧ c < 8 ∧ (e.memory (e.i + r)).testBit (7 - c) = true ∧
            (e.v Y + r) % 32 = r' ∧ (e.v X + c) % 64 = c') →
          e'.Display (r' * 64 + c') = e.Display (r' * 64 + c') ^^^ 1) ∧
        ((¬ ∃ r c, r < N ∧ c < 8 ∧ (e.memory (e.i + r)).testBit (7 - c) = true ∧
            (e.v Y + r) % 32 = r' ∧ (e.v X + c) % 64 = c') →
          e'.Display (r' * 64 + c') = e.Display (r' * 64 + c')) := by
  obtain ⟨s, hs, hinv⟩ := EmulateCycle_draw rnd e X Y N hX hY hN hf hmem
  refine ⟨_, hs, rfl, ?_⟩
  intro r' c' hr' hc'
  constructor
  · rintro ⟨r, c, hr, hc, hbit, hrow, hcol⟩
    have hidx : cellIndex (e.v X) (e.v Y) r c = r' * 64 + c' := by
      simp only [cellIndex, DisplayHeight, DisplayWidth, hrow, hcol]
    have := hinv.toggled r c ⟨hc, Or.inl hr⟩ ((lit_iff_testBit _ r hc).mpr hbit)
    rw [hidx] at this
    exact this
  · intro hno
    refine hinv.kept (r' * 64 + c') ?_
    intro r c hp hl heq
    have hc : c < 8 := hp.1
    have hr : r < N := by
      have := hp.2
      omega
    refine hno ⟨r, c, hr, hc, (lit_iff_testBit _ r hc).mp hl, ?_, ?_⟩
    · simp only [cellIndex, DisplayHeight, DisplayWidth] at heq
      omega
    · simp only [cellIndex, DisplayHeight, DisplayWidth] at heq
      omega

theorem draw_sprite_blit_witness :
    ∃ e', EmulateCycle 0 drawState = some e' ∧ e'.DrawFlag = true ∧
      ∀ r' c', r' < 32 → c' < 64 →
        ((∃ r c, r < 1 ∧ c < 8 ∧
            (drawState.memory (drawState.i + r)).testBit (7 - c) = true ∧
            (drawState.v 1 + r) % 32 = r' ∧ (drawState.v 0 + c) % 64 = c') →
          e'.Display (r' * 64 + c') = drawState.Display (r' * 64 + c') ^^^ 1) ∧
        ((¬ ∃ r c, r < 1 ∧ c < 8 ∧
            (drawState.memory (drawState.i + r)).testBit (7 - c) = true ∧
            (drawState.v 1 + r) % 32 = r' ∧ (drawState.v 0 + c) % 64 = c') →
          e'.Display (r' * 64 + c') = drawState.Display (r' * 64 + c')) :=
  draw_sprite_blit 0 drawState 0 1 1 (by decide) (by decide) (by decide) rfl
    (fun r hr => by show 0x202 + r < 4096; omega)

/-- C6. `DXYN` with the sprite bytes inside memory: after the step `VF` is 1 exactly
when some display cell went from 1 to 0, which is exactly when some set sprite bit
landed on a cell that was 1 before the step; otherwise `VF` is 0; in particular
drawing onto an all-clear display leaves `VF = 0`.  (This holds whatever bytes the
display cells contain, hence also when they are all 0 or 1.) -/
theorem draw_collision_flag (rnd : Nat) (e : Emulator) (X Y N : Nat)
    (hX : X < 16) (hY : Y < 16) (hN : N < 16)
    (hf : fetch e = some (0xD000 + 256 * X + 16 * Y + N))
    (hmem : ∀ r, r < N → e.i + r < 4096) :
    ∃ e', EmulateCycle rnd e = some e' ∧
      (e'.v 0xF = 1 ↔ ∃ idx, idx < 2048 ∧ e.Display idx = 1 ∧ e'.Display idx = 0) ∧
      (e'.v 0xF = 1 ↔ ∃ r c, r < N ∧ c < 8 ∧
        (e.memory (e.i + r)).testBit (7 - c) = true ∧
        e.Display (((e.v Y + r) % 32) * 64 + (e.v X + c) % 64) = 1) ∧
      (e'.v 0xF = 1 ∨ e'.v 0xF = 0) ∧
      ((∀ idx, idx < 2048 → e.Display idx = 0) → e'.v 0xF = 0) := by
  obtain ⟨s, hs, hinv⟩ := EmulateCycle_draw rnd e X Y N hX hY hN hf hmem
  have hlt : ∀ r c, cellIndex (e.v X) (e.v Y) r c < 2048 := by
    intro r c
    simp only [cellIndex, DisplayHeight, DisplayWidth]
    omega
  have hpr : ∀ r c, processed N 0 r c ↔ (r < N ∧ c < 8) := by
    intro r c; unfold processed; omega
  -- the flag in terms of sprite positions
  have hflag : s.v 0xF = 1 ↔ ∃ r c, r < N ∧ c < 8 ∧
      (e.memory (e.i + r)).testBit (7 - c) = true ∧
      e.Display (cellIndex (e.v X) (e.v Y) r c) = 1 := by
    constructor
    · intro h1
      by_contra hno
      have h0 := hinv.flag_kept (fun r c hp hl hone =>
        hno ⟨r, c, ((hpr r c).mp hp).1, hp.1, (lit_iff_testBit _ r hp.1).mp hl, hone⟩)
      rw [h1] at h0
      simp [setAt] at h0
    · rintro ⟨r, c, hr, hc, hbit, hone⟩
      exact hinv.flag_set r c ((hpr r c).mpr ⟨hr, hc⟩) ((lit_iff_testBit _ r hc).mpr hbit) hone
  have hzero : ¬ s.v 0xF = 1 → s.v 0xF = 0 := by
    intro hne
    have h0 := hinv.flag_kept (fun r c hp hl hone =>
      hne (hinv.flag_set r c hp hl hone))
    simpa [setAt] using h0
  refine ⟨_, hs, ?_, hflag, ?_, ?_⟩
  · show s.v 0xF = 1 ↔ ∃ idx, idx < 2048 ∧ e.Display idx = 1 ∧ s.Display idx = 0
    rw [hflag]
    constructor
    · rintro ⟨r, c, hr, hc, hbit, hone⟩
      refine ⟨_, hlt r c, hone, ?_⟩
      have := hinv.toggled r c ((hpr r c).mpr ⟨hr, hc⟩) ((lit_iff_testBit _ r hc).mpr hbit)
      rw [this]
      show e.Display _ ^^^ 1 = 0
      rw [hone]
      rfl
    · rintro ⟨idx, hidx, hone, hz⟩
      by_contra hno
      have hk := hinv.kept idx (fun r c hp hl heq =>
        hno ⟨r, c, ((hpr r c).mp hp).1, hp.1, (lit_iff_testBit _ r hp.1).mp hl,
          by rw [heq]; exact hone⟩)
      have : s.Display idx = 1 := hk.trans hone
      omega
  · by_cases h1 : s.v 0xF = 1
    · exact Or.inl h1
    · exact Or.inr (hzero h1)
  · intro hclear
    apply hzero
    intro h1
    obtain ⟨r, c, _, _, _, hone⟩ := hflag.mp h1
    have := hclear _ (hlt r c)
    omega

theorem draw_collision_flag_witness :
    ∃ e', EmulateCycle 0 drawCollideState = some e' ∧
      (e'.v 0xF = 1 ↔
        ∃ idx, idx < 2048 ∧ drawCollideState.Display idx = 1 ∧ e'.Display idx = 0) ∧
      (e'.v 0xF = 1 ↔ ∃ r c, r < 1 ∧ c < 8 ∧
        (drawCollideState.memory (drawCollideState.i + r)).testBit (7 - c) = true ∧
        drawCollideState.Display
          (((drawCollideState.v 1 + r) % 32) * 64 + (drawCollideState.v 0 + c) % 64) = 1) ∧
      (e'.v 0xF = 1 ∨ e'.v 0xF = 0) ∧
      ((∀ idx, idx < 2048 → drawCollideState.Display idx = 0) → e'.v 0xF = 0) :=
  draw_collision_flag 0 drawCollideState 0 1 1 (by decide) (by decide) (by decide) rfl
    (fun r hr => by show 0x202 + r < 4096; omega)

/-! ## Random byte -/

/-- A mask and its 8-bit complement have no common bit. -/
theorem and_compl_byte {n : Nat} (h : n < 256) : n &&& (255 - n) = 0 := by
  apply Nat.eq_of_testBit_eq
  intro i
  have h8 : n < 2 ^ 8 := h
  have hc : 255 - n = 2 ^ 8 - (n + 1) := by omega
  rw [hc, Nat.testBit_and, Nat.testBit_two_pow_sub_succ h8]
  cases n.testBit i <;> simp

/-- C13. `CXNN` with a random draw `r` in 0..255: the step succeeds, `VX = r AND NN`,
`VX` has no bit outside `NN`, and `VF` is unchanged when `X` is not `F`. -/
theorem random_and_mask (r : Nat) (e : Emulator) (X NN : Nat)
    (hX : X < 16) (hNN : NN < 256) (hr : r < 256)
    (hf : fetch e = some (0xC000 + 256 * X + NN)) :
    ∃ e', EmulateCycle r e = some e' ∧ e'.v X = r &&& NN ∧
      e'.v X &&& (255 - NN) = 0 ∧ (X ≠ 0xF → e'.v 0xF = e.v 0xF) := by
  have hg : (0xC000 + 256 * X + NN) / 4096 % 16 = 12 := by omega
  have hx : (0xC000 + 256 * X + NN) / 256 % 16 = X := by omega
  have hn : (0xC000 + 256 * X + NN) % 256 % 256 = NN := by omega
  have hr' : r % 256 = r := by omega
  have hstep : EmulateCycle r e =
      some { e with pc := (e.pc + 2) % 65536, v := setAt e.v X (r &&& NN) } := by
    rw [EmulateCycle_of_fetch r hf]
    simp only [execute, and_F000, shr_0F00, and_00FF, hg, hx, hn, hr']
    simp
  refine ⟨_, hstep, ?_, ?_, ?_⟩
  · simp [setAt]
  · have : setAt e.v X (r &&& NN) X = r &&& NN := by simp [setAt]
    show setAt e.v X (r &&& NN) X &&& (255 - NN) = 0
    rw [this, Nat.and_assoc, and_compl_byte hNN, Nat.and_zero]
  · intro hXF
    have h1 : (15 : Nat) ≠ X := fun h => hXF h.symm
    simp [setAt, h1]

theorem random_and_mask_witness :
    ∃ e', EmulateCycle 0xA7 randomState = some e' ∧ e'.v 2 = 0xA7 &&& 0x0F ∧
      e'.v 2 &&& (255 - 0x0F) = 0 ∧ (2 ≠ 0xF → e'.v 0xF = randomState.v 0xF) :=
  random_and_mask 0xA7 randomState 2 0x0F (by decide) (by decide) (by decide) rfl

/-! ## Clear display -/

/-- C14. `00E0`: the step succeeds, all 2048 display cells are 0 and the dirty flag
is true afterwards, `PC` has advanced by 2, and memory, registers, index register,
stack, stack pointer, keypad and timers are unchanged. -/
theorem clear_display (rnd : Nat) (e : Emulator) (hf : fetch e = some 0x00E0) :
    ∃ e', EmulateCycle rnd e = some e' ∧
      (∀ idx, idx < 2048 → e'.Display idx = 0) ∧ e'.DrawFlag = true ∧
      e'.pc = e.pc + 2 ∧ e'.memory = e.memory ∧ e'.v = e.v ∧ e'.i = e.i ∧
      e'.stack = e.stack ∧ e'.sp = e.sp ∧ e'.keypad = e.keypad ∧
      e'.delayTimer = e.delayTimer ∧ e'.soundTimer = e.soundTimer := by
  have hpc := fetch_pc_lt hf
  have hpc2 : (e.pc + 2) % 65536 = e.pc + 2 := by omega
  rw [EmulateCycle_of_fetch rnd hf, execute_group0 rnd _ (by decide), hpc2]
  simp only [exec0, if_true]
  refine ⟨_, rfl, ?_, rfl, rfl, rfl, rfl, rfl, rfl, rfl, rfl, rfl, rfl⟩
  intro idx hidx
  simp [DisplaySize, DisplayWidth, DisplayHeight, hidx]

theorem clear_display_witness :
    ∃ e', EmulateCycle 0 clearState = some e' ∧
      (∀ idx, idx < 2048 → e'.Display idx = 0) ∧ e'.DrawFlag = true ∧
      e'.pc = clearState.pc + 2 ∧ e'.memory = clearState.memory ∧ e'.v = clearState.v ∧
      e'.i = clearState.i ∧ e'.stack = clearState.stack ∧ e'.sp = clearState.sp ∧
      e'.keypad = clearState.keypad ∧ e'.delayTimer = clearState.delayTimer ∧
      e'.soundTimer = clearState.soundTimer :=
  clear_display 0 clearState rfl

/-! ## End-to-end scenario -/

/-- C15. From a freshly constructed machine (`PC = 0x200`), `LoadROM` of the bytes
`60 0A 61 05 80 14` followed by three calls of `EmulateCycle` yields `V0 = 0x0F`,
`V1 = 0x05`, `VF = 0` and `PC = 0x206`, whatever the random draws. -/
theorem load_load_add_scenario (r1 r2 r3 : Nat) :
    New.pc = 0x200 ∧
    (((EmulateCycle r1 (LoadROM [0x60, 0x0A, 0x61, 0x05, 0x80, 0x14] New)).bind
      (EmulateCycle r2)).bind (EmulateCycle r3)).map
        (fun e => (e.v 0, e.v 1, e.v 0xF, e.pc)) = some (0x0F, 0x05, 0, 0x206) :=
  ⟨rfl, rfl⟩

/-! ## Loading a program image -/

/-- What `LoadROM` stores at `0x200 + k` when `k` is inside both the image and memory. -/
theorem LoadROM_memory_at (e : Emulator) (data : List Nat) {k : Nat}
    (hk : k < data.length) (hk' : k < 3584) :
    data[k]? = some ((LoadROM data e).memory (0x200 + k)) := by
  have hcond : ProgramStart ≤ 0x200 + k ∧ 0x200 + k < 4096 ∧
      0x200 + k - ProgramStart < data.length := by
    simp only [ProgramStart]; omega
  have hidx : 0x200 + k - ProgramStart = k := by simp only [ProgramStart]; omega
  have hmem : (LoadROM data e).memory (0x200 + k) = data.getD (0x200 + k - ProgramStart) 0 :=
    if_pos hcond
  rw [hmem, hidx, List.getD_eq_getElem _ _ hk, List.getElem?_eq_getElem hk]

theorem LoadROM_memory_outside (e : Emulator) (data : List Nat) {a : Nat}
    (ha : a < 0x200 ∨ 0x200 + data.length ≤ a) :
    (LoadROM data e).memory a = e.memory a := by
  have hcond : ¬ (ProgramStart ≤ a ∧ a < 4096 ∧ a - ProgramStart < data.length) := by
    simp only [ProgramStart]; omega
  exact if_neg hcond

/-- C16. `LoadROM` of at most 3584 bytes: `memory[0x200 + k] = data[k]` for every
`k < len(data)`, every memory byte below 0x200 or at or above `0x200 + len(data)` is
unchanged, and so is every other field of the state. -/
theorem LoadROM_places_image (e : Emulator) (data : List Nat) (hlen : data.length ≤ 3584) :
    (∀ k, k < data.length → data[k]? = some ((LoadROM data e).memory (0x200 + k))) ∧
    (∀ a, a < 0x200 → (LoadROM data e).memory a = e.memory a) ∧
    (∀ a, 0x200 + data.length ≤ a → (LoadROM data e).memory a = e.memory a) ∧
    (LoadROM data e).v = e.v ∧ (LoadROM data e).i = e.i ∧ (LoadROM data e).pc = e.pc ∧
    (LoadROM data e).sp = e.sp ∧ (LoadROM data e).stack = e.stack ∧
    (LoadROM data e).Display = e.Display ∧ (LoadROM data e).DrawFlag = e.DrawFlag ∧
    (LoadROM data e).keypad = e.keypad ∧
    (LoadROM data e).delayTimer = e.delayTimer ∧
    (LoadROM data e).soundTimer = e.soundTimer :=
  ⟨fun _ hk => LoadROM_memory_at e data hk (by omega),
    fun _ ha => LoadROM_memory_outside e data (Or.inl ha),
    fun _ ha => LoadROM_memory_outside e data (Or.inr ha),
    rfl, rfl, rfl, rfl, rfl, rfl, rfl, rfl, rfl, rfl⟩

theorem LoadROM_places_image_witness :
    (∀ k, k < [0x60, 0x0A, 0x61].length →
      [0x60, 0x0A, 0x61][k]? = some ((LoadROM [0x60, 0x0A, 0x61] New).memory (0x200 + k))) ∧
    (∀ a, a < 0x200 → (LoadROM [0x60, 0x0A, 0x61] New).memory a = New.memory a) ∧
    (∀ a, 0x200 + [0x60, 0x0A, 0x61].length ≤ a →
      (LoadROM [0x60, 0x0A, 0x61] New).memory a = New.memory a) ∧
    (LoadROM [0x60, 0x0A, 0x61] New).v = New.v ∧
    (LoadROM [0x60, 0x0A, 0x61] New).i = New.i ∧
    (LoadROM [0x60, 0x0A, 0x61] New).pc = New.pc ∧
    (LoadROM [0x60, 0x0A, 0x61] New).sp = New.sp ∧
    (LoadROM [0x60, 0x0A, 0x61] New).stack = New.stack ∧
    (LoadROM [0x60, 0x0A, 0x61] New).Display = New.Display ∧
    (LoadROM [0x60, 0x0A, 0x61] New).DrawFlag = New.DrawFlag ∧
    (LoadROM [0x60, 0x0A, 0x61] New).keypad = New.keypad ∧
    (LoadROM [0x60, 0x0A, 0x61] New).delayTimer = New.delayTimer ∧
    (LoadROM [0x60, 0x0A, 0x61] New).soundTimer = New.soundTimer :=
  LoadROM_places_image New [0x60, 0x0A, 0x61] (by decide)

/-- C17 (amended). `LoadROM` of more than 3584 bytes does not fail: the first 3584
bytes of the image are copied to `memory[0x200..0xFFF]`, the rest of the image is
dropped, the memory below 0x200 and every other field of the state are unchanged. -/
theorem LoadROM_truncates_image (e : Emulator) (data : List Nat)
    (hlen : 3584 < data.length) :
    (∀ k, k < 3584 → data[k]? = some ((LoadROM data e).memory (0x200 + k))) ∧
    (∀ a, a < 0x200 → (LoadROM data e).memory a = e.memory a) ∧
    (LoadROM data e).v = e.v ∧ (LoadROM data e).i = e.i ∧ (LoadROM data e).pc = e.pc ∧
    (LoadROM data e).sp = e.sp ∧ (LoadROM data e).stack = e.stack ∧
    (LoadROM data e).Display = e.Display ∧ (LoadROM data e).DrawFlag = e.DrawFlag ∧
    (LoadROM data e).keypad = e.keypad ∧
    (LoadROM data e).delayTimer = e.delayTimer ∧
    (LoadROM data e).soundTimer = e.soundTimer :=
  ⟨fun _ hk => LoadROM_memory_at e data (by omega) hk,
    fun _ ha => LoadROM_memory_outside e data (Or.inl ha),
    rfl, rfl, rfl, rfl, rfl, rfl, rfl, rfl, rfl, rfl⟩

theorem LoadROM_truncates_image_witness :
    (∀ k, k < 3584 →
      oversizedImage[k]? = some ((LoadROM oversizedImage New).memory (0x200 + k))) ∧
    (∀ a, a < 0x200 → (LoadROM oversizedImage New).memory a = New.memory a) ∧
    (LoadROM oversizedImage New).v = New.v ∧ (LoadROM oversizedImage New).i = New.i ∧
    (LoadROM oversizedImage New).pc = New.pc ∧
    (LoadROM oversizedImage New).sp = New.sp ∧
    (LoadROM oversizedImage New).stack = New.stack ∧
    (LoadROM oversizedImage New).Display = New.Display ∧
    (LoadROM oversizedImage New).DrawFlag = New.DrawFlag ∧
    (LoadROM oversizedImage New).keypad = New.keypad ∧
    (LoadROM oversizedImage New).delayTimer = New.delayTimer ∧
    (LoadROM oversizedImage New).soundTimer = New.soundTimer :=
  LoadROM_truncates_image New oversizedImage
    (by rw [oversizedImage, List.length_replicate]; decide)

/-- C17 (as stated) fails: an image of 3585 bytes is not rejected; `LoadROM` returns
a machine whose memory at 0x200 and at 0xFFF holds bytes of the image. -/
theorem LoadROM_oversized_counterexample :
    oversizedImage.length = 3585 ∧
    New.memory 0x200 = 0 ∧ (LoadROM oversizedImage New).memory 0x200 = 0xAB ∧
    New.memory 0xFFF = 0 ∧ (LoadROM oversizedImage New).memory 0xFFF = 0xAB := by
  have hlen : oversizedImage.length = 3585 := by
    rw [oversizedImage, List.length_replicate]
  have h0 := LoadROM_memory_at New oversizedImage (k := 0) (by rw [hlen]; decide) (by decide)
  have h1 := LoadROM_memory_at New oversizedImage (k := 3583) (by rw [hlen]; decide) (by decide)
  rw [oversizedImage, List.getElem?_replicate_of_lt (by decide)] at h0 h1
  exact ⟨hlen, rfl, (Option.some.inj h0).symm, rfl, (Option.some.inj h1).symm⟩

/-! ## BCD and register dump/load -/

/-- C11. `FX33` with `I + 2` inside memory and `VX` a byte: the step succeeds, the
bytes at `I`, `I+1`, `I+2` are decimal digits with `100*m[I] + 10*m[I+1] + m[I+2] = VX`,
every other memory byte is unchanged, and so are the registers and `I`. -/
theorem store_bcd (rnd : Nat) (e : Emulator) (X : Nat) (hX : X < 16)
    (hv : e.v X < 256) (hf : fetch e = some (0xF033 + 256 * X))
    (hmem : e.i + 2 < 4096) :
    ∃ e', EmulateCycle rnd e = some e' ∧
      e'.memory e.i ≤ 9 ∧ e'.memory (e.i + 1) ≤ 9 ∧ e'.memory (e.i + 2) ≤ 9 ∧
      100 * e'.memory e.i + 10 * e'.memory (e.i + 1) + e'.memory (e.i + 2) = e.v X ∧
      (∀ a, a ≠ e.i → a ≠ e.i + 1 → a ≠ e.i + 2 → e'.memory a = e.memory a) ∧
      e'.v = e.v ∧ e'.i = e.i := by
  have hg : (0xF033 + 256 * X) / 4096 % 16 = 15 := by omega
  have hx : (0xF033 + 256 * X) / 256 % 16 = X := by omega
  have hk : (0xF033 + 256 * X) % 256 = 0x33 := by omega
  have h1 : (e.i + 1) % 65536 = e.i + 1 := by omega
  have h2 : (e.i + 2) % 65536 = e.i + 2 := by omega
  rw [EmulateCycle_of_fetch rnd hf, execute_groupF rnd _ hg, hx, execF_33 X _ hk]
  simp only [h1, h2]
  rw [if_pos ⟨by omega, by omega, by omega⟩]
  refine ⟨_, rfl, ?_, ?_, ?_, ?_, ?_, rfl, rfl⟩
  · simp [setAt]; omega
  · simp [setAt]; omega
  · simp [setAt]; omega
  · simp [setAt]; omega
  · intro a h0 h1' h2'
    simp [setAt, h0, h1', h2']

theorem store_bcd_witness :
    ∃ e', EmulateCycle 0 bcdState = some e' ∧
      e'.memory bcdState.i ≤ 9 ∧ e'.memory (bcdState.i + 1) ≤ 9 ∧
      e'.memory (bcdState.i + 2) ≤ 9 ∧
      100 * e'.memory bcdState.i + 10 * e'.memory (bcdState.i + 1) +
        e'.memory (bcdState.i + 2) = bcdState.v 0 ∧
      (∀ a, a ≠ bcdState.i → a ≠ bcdState.i + 1 → a ≠ bcdState.i + 2 →
        e'.memory a = bcdState.memory a) ∧
      e'.v = bcdState.v ∧ e'.i = bcdState.i :=
  store_bcd 0 bcdState 0 (by decide) (by decide) rfl (by decide)

/-- The loop of `Fx55` in closed form. -/
theorem dump_loop (e : Emulator) (n : Nat) (h : e.i + n ≤ 4096) :
    (List.range n).foldlM dumpStep e = some { e with
      memory := fun a => if e.i ≤ a ∧ a < e.i + n then e.v (a - e.i) else e.memory a } := by
  induction n with
  | zero =>
    have : (fun a => if e.i ≤ a ∧ a < e.i + 0 then e.v (a - e.i) else e.memory a) = e.memory := by
      funext a
      rw [if_neg (by omega)]
    simp only [List.range_zero, List.foldlM_nil, this]
    rfl
  | succ n ih =>
    have hlt : (e.i + n) % 65536 < 4096 := by omega
    have hmod : (e.i + n) % 65536 = e.i + n := by omega
    rw [List.range_succ, List.foldlM_append, ih (by omega)]
    simp only [Option.bind_eq_bind, Option.some_bind, List.foldlM_cons, List.foldlM_nil,
      dumpStep, hlt, if_true, hmod]
    rw [if_pos (by omega)]
    change some _ = some _
    congr 2
    funext a
    simp only [setAt]
    by_cases ha : a = e.i + n
    · subst ha
      simp
    · rw [if_neg ha]
      by_cases hr : e.i ≤ a ∧ a < e.i + n
      · rw [if_pos hr, if_pos (by omega)]
      · rw [if_neg hr, if_neg (by omega)]

/-- The loop of `Fx65` in closed form. -/
theorem load_loop (e : Emulator) (n : Nat) (h : e.i + n ≤ 4096) :
    (List.range n).foldlM loadStep e = some { e with
      v := fun k => if k < n then e.memory (e.i + k) else e.v k } := by
  induction n with
  | zero =>
    simp only [List.range_zero, List.foldlM_nil, Nat.not_lt_zero, if_false]
    rfl
  | succ n ih =>
    have hlt : (e.i + n) % 65536 < 4096 := by omega
    have hmod : (e.i + n) % 65536 = e.i + n := by omega
    rw [List.range_succ, List.foldlM_append, ih (by omega)]
    simp only [Option.bind_eq_bind, Option.some_bind, List.foldlM_cons, List.foldlM_nil,
      loadStep, hlt, if_true, hmod]
    rw [if_pos (by omega)]
    change some _ = some _
    congr 2
    funext k
    simp only [setAt]
    by_cases hk : k = n
    · subst hk
      simp
    · rw [if_neg hk]
      by_cases hr : k < n
      · rw [if_pos hr, if_pos (by omega)]
      · rw [if_neg hr, if_neg (by omega)]

/-- C12. `FX55` with `I + X` inside memory: the step succeeds, `memory[I + k] = Vk` for
every `k ≤ X`, no other memory byte, no register and not `I` changes.  `FX65` with the
same `X`, in any state whose `I` and memory are those left by that dump: the step
succeeds, `V0..VX` hold the dumped values, the registers above `X`, `I` and the memory
are unchanged. -/
theorem register_dump_load (r1 r2 : Nat) (e : Emulator) (X : Nat) (hX : X < 16)
    (hf : fetch e = some (0xF055 + 256 * X)) (hmem : e.i + X < 4096) :
    ∃ e1, EmulateCycle r1 e = some e1 ∧
      (∀ k, k ≤ X → e1.memory (e.i + k) = e.v k) ∧
      (∀ a, ¬ (e.i ≤ a ∧ a ≤ e.i + X) → e1.memory a = e.memory a) ∧
      e1.v = e.v ∧ e1.i = e.i ∧
      ∀ e2, fetch e2 = some (0xF065 + 256 * X) → e2.i = e1.i → e2.memory = e1.memory →
        ∃ e3, EmulateCycle r2 e2 = some e3 ∧
          (∀ k, k ≤ X → e3.v k = e.v k) ∧ (∀ k, X < k → e3.v k = e2.v k) ∧
          e3.i = e2.i ∧ e3.memory = e2.memory := by
  have hg : (0xF055 + 256 * X) / 4096 % 16 = 15 := by omega
  have hx : (0xF055 + 256 * X) / 256 % 16 = X := by omega
  have hk : (0xF055 + 256 * X) % 256 = 0x55 := by omega
  have hg' : (0xF065 + 256 * X) / 4096 % 16 = 15 := by omega
  have hx' : (0xF065 + 256 * X) / 256 % 16 = X := by omega
  have hk' : (0xF065 + 256 * X) % 256 = 0x65 := by omega
  have hdump : ∀ k, k ≤ X →
      (if e.i ≤ e.i + k ∧ e.i + k < e.i + (X + 1) then e.v (e.i + k - e.i)
        else e.memory (e.i + k)) = e.v k := by
    intro k hk
    rw [if_pos (by omega), Nat.add_sub_cancel_left]
  rw [EmulateCycle_of_fetch r1 hf, execute_groupF r1 _ hg, hx, execF_55 X _ hk,
    dump_loop _ (X + 1) (by show e.i + (X + 1) ≤ 4096; omega)]
  refine ⟨_, rfl, hdump, ?_, rfl, rfl, ?_⟩
  · intro a ha
    show (if e.i ≤ a ∧ a < e.i + (X + 1) then e.v (a - e.i) else e.memory a) = e.memory a
    rw [if_neg (by omega)]
  · intro e2 hf2 hi2 hm2
    have hi2' : e2.i = e.i := hi2
    rw [EmulateCycle_of_fetch r2 hf2, execute_groupF r2 _ hg', hx', execF_65 X _ hk',
      load_loop _ (X + 1) (by show e2.i + (X + 1) ≤ 4096; omega)]
    refine ⟨_, rfl, ?_, ?_, rfl, rfl⟩
    · intro k hk
      show (if k < X + 1 then e2.memory (e2.i + k) else e2.v k) = e.v k
      rw [if_pos (by omega), hm2, hi2']
      exact hdump k hk
    · intro k hk
      show (if k < X + 1 then e2.memory (e2.i + k) else e2.v k) = e2.v k
      rw [if_neg (by omega)]

theorem register_dump_load_witness :
    ∃ e1, EmulateCycle 0 dumpState = some e1 ∧
      e1.memory 0x300 = 7 ∧ e1.memory 0x301 = 9 ∧ e1.memory 0x302 = 0 ∧
      ∃ e3, EmulateCycle 0 { e1 with pc := 0x202, v := fun _ => 0 } = some e3 ∧
        e3.v 0 = 7 ∧ e3.v 1 = 9 ∧ e3.v 2 = 0 := by
  obtain ⟨e1, h1, hm, hout, _, hi, hload⟩ :=
    register_dump_load 0 0 dumpState 1 (by decide) rfl (by decide)
  have hi' : e1.i = 0x300 := hi
  have hm0 : e1.memory 0x300 = 7 := hm 0 (by decide)
  have hm1 : e1.memory 0x301 = 9 := hm 1 (by decide)
  have hm2 : e1.memory 0x302 = 0 := hout 0x302 (by show ¬ (0x300 ≤ 0x302 ∧ 0x302 ≤ 0x300 + 1); omega)
  have hc0 : e1.memory 0x202 = 0xF1 :=
    hout 0x202 (by show ¬ (0x300 ≤ 0x202 ∧ 0x202 ≤ 0x300 + 1); omega)
  have hc1 : e1.memory 0x203 = 0x65 :=
    hout 0x203 (by show ¬ (0x300 ≤ 0x203 ∧ 0x203 ≤ 0x300 + 1); omega)
  have hf2 : fetch { e1 with pc := 0x202, v := fun _ => 0 } = some (0xF065 + 256 * 1) := by
    simp [fetch, hc0, hc1]
  obtain ⟨e3, h3, hv3, hv3', _, _⟩ := hload { e1 with pc := 0x202, v := fun _ => 0 } hf2 rfl rfl
  exact ⟨e1, h1, hm0, hm1, hm2, e3, h3, hv3 0 (by decide), hv3 1 (by decide),
    hv3' 2 (by decide)⟩

/-! ## What a step leaves alone -/

theorem exec8_same {w x y : Nat} {e e' : Emulator} (h : exec8 w x y e = some e') :
    SameStackDisplayKeys e e' := by
  have hmap : (exec8 w x y e).map (fun s => (s.sp, s.Display, s.DrawFlag, s.keypad)) =
      some (e.sp, e.Display, e.DrawFlag, e.keypad) := by
    simp only [exec8, apply_ite (Option.map _), Option.map_some', ite_self]
  rw [h] at hmap
  simp only [Option.map_some', Option.some.injEq, Prod.mk.injEq] at hmap
  exact hmap

theorem execE_same {w x : Nat} {e e' : Emulator} (h : execE w x e = some e') :
    SameStackDisplayKeys e e' := by
  simp only [execE] at h
  split_ifs at h <;> cases h <;> exact ⟨rfl, rfl, rfl, rfl⟩

theorem dumpStep_same {e e' : Emulator} {k : Nat} (h : dumpStep e k = some e') :
    SameStackDisplayKeys e e' := by
  simp only [dumpStep] at h
  split_ifs at h
  cases h
  exact ⟨rfl, rfl, rfl, rfl⟩

theorem loadStep_same {e e' : Emulator} {k : Nat} (h : loadStep e k = some e') :
    SameStackDisplayKeys e e' := by
  simp only [loadStep] at h
  split_ifs at h
  cases h
  exact ⟨rfl, rfl, rfl, rfl⟩

theorem SameStackDisplayKeys.trans {a b c : Emulator} (h1 : SameStackDisplayKeys a b)
    (h2 : SameStackDisplayKeys b c) : SameStackDisplayKeys a c :=
  ⟨h2.1.trans h1.1, h2.2.1.trans h1.2.1, h2.2.2.1.trans h1.2.2.1, h2.2.2.2.trans h1.2.2.2⟩

theorem execF_same {w x : Nat} {e e' : Emulator} (h : execF w x e = some e') :
    SameStackDisplayKeys e e' := by
  by_cases h0A : w % 256 = 0x0A
  · rw [execF_0A x e h0A] at h
    split at h <;> cases h <;> exact ⟨rfl, rfl, rfl, rfl⟩
  by_cases h07 : w % 256 = 0x07
  · rw [execF_07 x e h07] at h; cases h; exact ⟨rfl, rfl, rfl, rfl⟩
  by_cases h15 : w % 256 = 0x15
  · rw [execF_15 x e h15] at h; cases h; exact ⟨rfl, rfl, rfl, rfl⟩
  by_cases h18 : w % 256 = 0x18
  · rw [execF_18 x e h18] at h; cases h; exact ⟨rfl, rfl, rfl, rfl⟩
  by_cases h1E : w % 256 = 0x1E
  · rw [execF_1E x e h1E] at h; cases h; exact ⟨rfl, rfl, rfl, rfl⟩
  by_cases h29 : w % 256 = 0x29
  · rw [execF_29 x e h29] at h; cases h; exact ⟨rfl, rfl, rfl, rfl⟩
  by_cases h33 : w % 256 = 0x33
  · rw [execF_33 x e h33] at h
    split_ifs at h
    cases h; exact ⟨rfl, rfl, rfl, rfl⟩
  by_cases h55 : w % 256 = 0x55
  · rw [execF_55 x e h55] at h
    exact foldlM_inv (SameStackDisplayKeys e) dumpStep
      (fun s r s' hs hr => hs.trans (dumpStep_same hr)) _ e e' ⟨rfl, rfl, rfl, rfl⟩ h
  by_cases h65 : w % 256 = 0x65
  · rw [execF_65 x e h65] at h
    exact foldlM_inv (SameStackDisplayKeys e) loadStep
      (fun s r s' hs hr => hs.trans (loadStep_same hr)) _ e e' ⟨rfl, rfl, rfl, rfl⟩ h
  rw [execF_other x e ⟨h07, h0A, h15, h18, h1E, h29, h33, h55, h65⟩] at h
  cases h; exact ⟨rfl, rfl, rfl, rfl⟩

theorem drawPixel_sp_keypad (vx vy row pixel : Nat) (e : Emulator) (col : Nat) :
    (drawPixel vx vy row pixel e col).sp = e.sp ∧
    (drawPixel vx vy row pixel e col).keypad = e.keypad := by
  simp only [drawPixel]
  split_ifs <;> exact ⟨rfl, rfl⟩

theorem drawRow_sp_keypad {vx vy : Nat} {e e' : Emulator} {row : Nat}
    (h : drawRow vx vy e row = some e') : e'.sp = e.sp ∧ e'.keypad = e.keypad := by
  simp only [drawRow] at h
  split_ifs at h
  cases h
  exact foldl_inv (fun s => s.sp = e.sp ∧ s.keypad = e.keypad) _
    (fun s c hs => ⟨(drawPixel_sp_keypad vx vy row _ s c).1.trans hs.1,
      (drawPixel_sp_keypad vx vy row _ s c).2.trans hs.2⟩) _ e ⟨rfl, rfl⟩

theorem draw_sp_keypad {x y n : Nat} {e e' : Emulator} (h : draw x y n e = some e') :
    e'.sp = e.sp ∧ e'.keypad = e.keypad := by
  simp only [draw] at h
  split at h
  · rename_i e1 h1
    cases h
    exact foldlM_inv (fun s => s.sp = e.sp ∧ s.keypad = e.keypad) (drawRow (e.v x) (e.v y))
      (fun s r s' hs hr => ⟨(drawRow_sp_keypad hr).1.trans hs.1,
        (drawRow_sp_keypad hr).2.trans hs.2⟩) _ { e with v := setAt e.v 0xF 0 } e1
      ⟨rfl, rfl⟩ h1
  · cases h

/-- What `execute` does to the stack pointer, the display, the dirty flag and the
keypad, by opcode group. -/
theorem execute_frame {rnd w : Nat} {e e' : Emulator} (h : execute rnd w e = some e') :
    e'.keypad = e.keypad ∧
    (w ≠ 0x00EE → w / 4096 % 16 ≠ 2 → e'.sp = e.sp) ∧
    (w = 0x00EE → e'.sp < 16) ∧
    (w / 4096 % 16 = 2 → e.sp < 16 ∧ e'.sp = (e.sp + 1) % 256) ∧
    (w ≠ 0x00E0 → w / 4096 % 16 ≠ 13 → e'.Display = e.Display ∧ e'.DrawFlag = e.DrawFlag) := by
  have hsame : ∀ {s : Emulator}, SameStackDisplayKeys e s → w / 4096 % 16 ≠ 0 →
      w / 4096 % 16 ≠ 2 →
      s.keypad = e.keypad ∧
      (w ≠ 0x00EE → w / 4096 % 16 ≠ 2 → s.sp = e.sp) ∧
      (w = 0x00EE → s.sp < 16) ∧
      (w / 4096 % 16 = 2 → e.sp < 16 ∧ s.sp = (e.sp + 1) % 256) ∧
      (w ≠ 0x00E0 → w / 4096 % 16 ≠ 13 → s.Display = e.Display ∧ s.DrawFlag = e.DrawFlag) := by
    intro s hs h0 h2
    refine ⟨hs.2.2.2, fun _ _ => hs.1, fun hw => ?_, fun hw => absurd hw h2,
      fun _ _ => ⟨hs.2.1, hs.2.2.1⟩⟩
    exact absurd (by omega) h0
  have hg16 : w / 4096 % 16 < 16 := Nat.mod_lt _ (by decide)
  have hcases : w / 4096 % 16 = 0 ∨ w / 4096 % 16 = 1 ∨ w / 4096 % 16 = 2 ∨
      w / 4096 % 16 = 3 ∨ w / 4096 % 16 = 4 ∨ w / 4096 % 16 = 5 ∨ w / 4096 % 16 = 6 ∨
      w / 4096 % 16 = 7 ∨ w / 4096 % 16 = 8 ∨ w / 4096 % 16 = 9 ∨ w / 4096 % 16 = 10 ∨
      w / 4096 % 16 = 11 ∨ w / 4096 % 16 = 12 ∨ w / 4096 % 16 = 13 ∨
      w / 4096 % 16 = 14 ∨ w / 4096 % 16 = 15 := by omega
  rcases hcases with hg | hg | hg | hg | hg | hg | hg | hg | hg | hg | hg | hg | hg | hg | hg | hg
  · -- 0x0000
    rw [execute_group0 rnd _ hg] at h
    simp only [exec0] at h
    split_ifs at h with h1 h2 h3
    · cases h
      exact ⟨rfl, fun _ _ => rfl, fun hw => by omega, fun hw => by omega,
        fun hw => absurd h1 hw⟩
    · cases h
      exact ⟨rfl, fun hw => absurd h2 hw, fun _ => h3, fun hw => by omega,
        fun _ _ => ⟨rfl, rfl⟩⟩
    · cases h
      exact ⟨rfl, fun _ _ => rfl, fun hw => absurd hw h2, fun hw => by omega,
        fun _ _ => ⟨rfl, rfl⟩⟩
  · simp [execute, and_F000, hg] at h
    cases h
    exact hsame ⟨rfl, rfl, rfl, rfl⟩ (by omega) (by omega)
  · -- 0x2000
    rw [execute_call rnd _ hg] at h
    split_ifs at h with hsp
    cases h
    exact ⟨rfl, fun _ h2 => absurd hg h2, fun hw => by omega, fun _ => ⟨hsp, rfl⟩,
      fun _ _ => ⟨rfl, rfl⟩⟩
  · simp [execute, and_F000, hg] at h
    split_ifs at h <;> cases h <;> exact hsame ⟨rfl, rfl, rfl, rfl⟩ (by omega) (by omega)
  · simp [execute, and_F000, hg] at h
    split_ifs at h <;> cases h <;> exact hsame ⟨rfl, rfl, rfl, rfl⟩ (by omega) (by omega)
  · simp [execute, and_F000, hg] at h
    split_ifs at h <;> cases h <;> exact hsame ⟨rfl, rfl, rfl, rfl⟩ (by omega) (by omega)
  · simp [execute, and_F000, hg] at h
    cases h
    exact hsame ⟨rfl, rfl, rfl, rfl⟩ (by omega) (by omega)
  · simp [execute, and_F000, hg] at h
    cases h
    exact hsame ⟨rfl, rfl, rfl, rfl⟩ (by omega) (by omega)
  · rw [execute_group8 rnd _ hg] at h
    exact hsame (exec8_same h) (by omega) (by omega)
  · simp [execute, and_F000, hg] at h
    split_ifs at h <;> cases h <;> exact hsame ⟨rfl, rfl, rfl, rfl⟩ (by omega) (by omega)
  · simp [execute, and_F000, hg] at h
    cases h
    exact hsame ⟨rfl, rfl, rfl, rfl⟩ (by omega) (by omega)
  · simp [execute, and_F000, hg] at h
    cases h
    exact hsame ⟨rfl, rfl, rfl, rfl⟩ (by omega) (by omega)
  · simp [execute, and_F000, hg] at h
    cases h
    exact hsame ⟨rfl, rfl, rfl, rfl⟩ (by omega) (by omega)
  · -- 0xD000
    rw [execute_groupD rnd _ hg] at h
    have hd := draw_sp_keypad h
    exact ⟨hd.2, fun _ _ => hd.1, fun hw => by omega, fun hw => by omega,
      fun _ hD => absurd hg hD⟩
  · rw [execute_groupE rnd _ hg] at h
    exact hsame (execE_same h) (by omega) (by omega)
  · rw [execute_groupF rnd _ hg] at h
    exact hsame (execF_same h) (by omega) (by omega)

theorem fetch_of_EmulateCycle {rnd : Nat} {e e' : Emulator}
    (h : EmulateCycle rnd e = some e') :
    ∃ w, fetch e = some w ∧ execute rnd w { e with pc := (e.pc + 2) % 65536 } = some e' := by
  unfold EmulateCycle at h
  split at h
  · rename_i w hw
    exact ⟨w, hw, h⟩
  · cases h

/-! ## Stack pointer -/

/-- C18. A return (`00EE`) with stack pointer 0 and a call (`2NNN`) with stack pointer
16 make the step fail (no successor state), and every step that succeeds from a state
with stack pointer at most 16 leaves the stack pointer at most 16. -/
theorem stack_pointer_guard (rnd : Nat) (e1 e2 e3 e3' : Emulator) (NNN : Nat)
    (hN : NNN < 4096)
    (hret : fetch e1 = some 0x00EE) (hsp1 : e1.sp = 0)
    (hcall : fetch e2 = some (0x2000 + NNN)) (hsp2 : e2.sp = 16)
    (hsp3 : e3.sp ≤ 16) (hstep : EmulateCycle rnd e3 = some e3') :
    EmulateCycle rnd e1 = none ∧ EmulateCycle rnd e2 = none ∧ e3'.sp ≤ 16 := by
  refine ⟨?_, ?_, ?_⟩
  · rw [EmulateCycle_of_fetch rnd hret, execute_group0 rnd _ (by decide)]
    simp [exec0, hsp1]
  · rw [EmulateCycle_of_fetch rnd hcall, execute_call rnd _ (by omega)]
    simp [hsp2]
  · obtain ⟨w, _, hex⟩ := fetch_of_EmulateCycle hstep
    obtain ⟨_, hkeep, hretw, hcallw, _⟩ := execute_frame hex
    by_cases hw : w = 0x00EE
    · exact Nat.le_of_lt (hretw hw)
    · by_cases hg : w / 4096 % 16 = 2
      · obtain ⟨hlt, heq⟩ := hcallw hg
        have hlt' : e3.sp < 16 := hlt
        rw [heq]
        show (e3.sp + 1) % 256 ≤ 16
        omega
      · rw [hkeep hw hg]
        exact hsp3

theorem stack_pointer_guard_witness :
    EmulateCycle 0 underflowState = none ∧ EmulateCycle 0 overflowState = none ∧
    ({ callState with stack := setAt callState.stack 0 0x202, sp := 1, pc := 0x204 } :
      Emulator).sp ≤ 16 :=
  stack_pointer_guard 0 underflowState overflowState callState
    { callState with stack := setAt callState.stack 0 0x202, sp := 1, pc := 0x204 } 0x204
    (by decide) rfl rfl rfl rfl (by decide) rfl

/-! ## Display and keypad -/

/-- C19. A successful step on a fetched word other than `00E0` and `DXYN` leaves all
2048 display cells and the dirty flag as they were; no successful step, whatever the
opcode, and no timer tick changes the keypad. -/
theorem display_and_keypad_frame (rnd : Nat) (e e' : Emulator) (w : Nat) (hwf : e.WF)
    (hf : fetch e = some w) (hs : EmulateCycle rnd e = some e') :
    (w ≠ 0x00E0 → w / 4096 ≠ 0xD →
      (∀ idx, idx < 2048 → e'.Display idx = e.Display idx) ∧ e'.DrawFlag = e.DrawFlag) ∧
    e'.keypad = e.keypad ∧ (UpdateTimers e).keypad = e.keypad := by
  have hw := fetch_lt hwf hf
  rw [EmulateCycle_of_fetch rnd hf] at hs
  obtain ⟨hkey, _, _, _, hdisp⟩ := execute_frame hs
  refine ⟨?_, hkey, ?_⟩
  · intro h0 hD
    obtain ⟨hd, hflag⟩ := hdisp h0 (by omega)
    exact ⟨fun idx _ => congrFun hd idx, hflag⟩
  · by_cases h1 : e.delayTimer > 0 <;> by_cases h2 : e.soundTimer > 0 <;>
      simp [UpdateTimers, h1, h2]

theorem display_and_keypad_frame_witness :
    (0x3007 ≠ 0x00E0 → 0x3007 / 4096 ≠ 0xD →
      (∀ idx, idx < 2048 →
        ({ skipState with pc := 0x204 } : Emulator).Display idx = skipState.Display idx) ∧
      ({ skipState with pc := 0x204 } : Emulator).DrawFlag = skipState.DrawFlag) ∧
    ({ skipState with pc := 0x204 } : Emulator).keypad = skipState.keypad ∧
    (UpdateTimers skipState).keypad = skipState.keypad :=
  display_and_keypad_frame 0 skipState { skipState with pc := 0x204 } 0x3007
    (machine_WF (by decide) (by decide)) rfl rfl

/-! ## Drawing twice -/

/-- C20. `DXYN` with `X`, `Y` different from `F` and the sprite inside memory: the
step succeeds, and executing the same word again in the state it leaves (at any PC
where that word is fetched) succeeds and restores every display cell to its value
before the first draw; if the first draw was made onto an all-clear display and the
sprite has a set bit, the second draw leaves `VF = 1`. -/
theorem draw_twice_restores (r1 r2 : Nat) (e : Emulator) (X Y N : Nat)
    (hX : X < 16) (hY : Y < 16) (hN : N < 16) (hXF : X ≠ 0xF) (hYF : Y ≠ 0xF)
    (hf : fetch e = some (0xD000 + 256 * X + 16 * Y + N))
    (hmem : ∀ r, r < N → e.i + r < 4096) :
    ∃ e1, EmulateCycle r1 e = some e1 ∧
      ∀ p2, fetch { e1 with pc := p2 } = some (0xD000 + 256 * X + 16 * Y + N) →
        ∃ e3, EmulateCycle r2 { e1 with pc := p2 } = some e3 ∧
          (∀ idx, idx < 2048 → e3.Display idx = e.Display idx) ∧
          ((∀ idx, idx < 2048 → e.Display idx = 0) →
            (∃ r c, r < N ∧ c < 8 ∧ (e.memory (e.i + r)).testBit (7 - c) = true) →
            e3.v 0xF = 1) := by
  obtain ⟨s, hs, hinv⟩ := EmulateCycle_draw r1 e X Y N hX hY hN hf hmem
  refine ⟨_, hs, ?_⟩
  intro p2 hf2
  have hi : s.i = e.i := hinv.i_eq
  have hm : s.memory = e.memory := hinv.memory_eq
  have hvx : s.v X = e.v X := by
    have := hinv.v_eq X hXF
    simpa [setAt, hXF] using this
  have hvy : s.v Y = e.v Y := by
    have := hinv.v_eq Y hYF
    simpa [setAt, hYF] using this
  have hmem2 : ∀ r, r < N → s.i + r < 4096 := by
    intro r hr; rw [hi]; exact hmem r hr
  obtain ⟨t, ht, hinv2⟩ :=
    EmulateCycle_draw r2 { s with DrawFlag := true, pc := p2 } X Y N hX hY hN hf2 hmem2
  have hlit : ∀ r c, lit e r c ↔
      lit { s with DrawFlag := true, pc := (p2 + 2) % 65536, v := setAt s.v 0xF 0 } r c := by
    intro r c
    show e.memory (e.i + r) &&& (0x80 >>> c) ≠ 0 ↔ s.memory (s.i + r) &&& (0x80 >>> c) ≠ 0
    rw [hm, hi]
  have hcell : ∀ r c, cellIndex (s.v X) (s.v Y) r c = cellIndex (e.v X) (e.v Y) r c := by
    intro r c; rw [hvx, hvy]
  have hpr : ∀ r c, processed N 0 r c ↔ (r < N ∧ c < 8) := by
    intro r c; unfold processed; omega
  have hlt : ∀ r c, cellIndex (e.v X) (e.v Y) r c < 2048 := by
    intro r c
    simp only [cellIndex, DisplayHeight, DisplayWidth]
    omega
  refine ⟨_, ht, ?_, ?_⟩
  · intro idx _
    show t.Display idx = e.Display idx
    by_cases hit : ∃ r c, processed N 0 r c ∧ lit e r c ∧
        cellIndex (e.v X) (e.v Y) r c = idx
    · obtain ⟨r, c, hp, hl, rfl⟩ := hit
      have h2 := hinv2.toggled r c hp ((hlit r c).mp hl)
      have h1 := hinv.toggled r c hp hl
      rw [hcell r c] at h2
      rw [h2]
      show s.Display _ ^^^ 1 = _
      rw [h1]
      show (e.Display _ ^^^ 1) ^^^ 1 = _
      rw [Nat.xor_assoc, Nat.xor_self, Nat.xor_zero]
    · have h2 := hinv2.kept idx (fun r c hp hl heq =>
        hit ⟨r, c, hp, (hlit r c).mpr hl, (hcell r c) ▸ heq⟩)
      have h1 := hinv.kept idx (fun r c hp hl heq => hit ⟨r, c, hp, hl, heq⟩)
      rw [h2]
      exact h1
  · rintro hclear ⟨r, c, hr, hc, hbit⟩
    have hp : processed N 0 r c := (hpr r c).mpr ⟨hr, hc⟩
    have hl : lit e r c := (lit_iff_testBit e r hc).mpr hbit
    have h1 := hinv.toggled r c hp hl
    refine hinv2.flag_set r c hp ((hlit r c).mp hl) ?_
    rw [hcell r c]
    show s.Display _ = 1
    rw [h1]
    show e.Display _ ^^^ 1 = 1
    rw [hclear _ (hlt r c)]
    rfl

theorem draw_twice_restores_witness :
    ∃ e1, EmulateCycle 0 drawState = some e1 ∧
      ∃ e3, EmulateCycle 0 { e1 with pc := 0x200 } = some e3 ∧
        (∀ idx, idx < 2048 → e3.Display idx = drawState.Display idx) ∧ e3.v 0xF = 1 := by
  have hmem : ∀ r, r < 1 → drawState.i + r < 4096 := by
    intro r hr
    show 0x202 + r < 4096
    omega
  obtain ⟨e1, h1, h2⟩ := draw_twice_restores 0 0 drawState 0 1 1 (by decide) (by decide)
    (by decide) (by decide) (by decide) rfl hmem
  obtain ⟨s, hs, hinv⟩ := EmulateCycle_draw 0 drawState 0 1 1 (by decide) (by decide)
    (by decide) rfl hmem
  have he : e1 = { s with DrawFlag := true } := Option.some.inj (h1.symm.trans hs)
  have hfetch : fetch { e1 with pc := 0x200 } = some (0xD000 + 256 * 0 + 16 * 1 + 1) := by
    have hfc : fetch { s with DrawFlag := true, pc := 0x200 } = fetch drawState :=
      fetch_congr hinv.memory_eq rfl
    rw [he]
    exact hfc.trans rfl
  obtain ⟨e3, h3, hd, hv⟩ := h2 0x200 hfetch
  exact ⟨e1, h1, e3, h3, hd, hv (fun _ _ => rfl) ⟨0, 0, by decide, by decide, rfl⟩⟩

end Chip8
